import Mathlib

/-!
# Verification of the ShowcaseX farming-plan engine (`src/services/farmingPlan.ts`)

This file gives a shallow embedding of the plan-generation and task-expansion
core of the repository and proves/refutes the frozen claims about it.

Modelling conventions:
* JavaScript `Date` objects (always held at local midnight by the source) are
  modelled as civil calendar triples `Civil (y m d : Int)`; `Date` comparison
  is chronological comparison, which for midnight dates is lexicographic
  comparison of the triples.  Time-of-day / timezone / DST effects are not
  modelled (the source only ever does whole-day arithmetic via `setDate`).
* JavaScript numbers are modelled as `Int` (the source only does whole-number
  arithmetic on the values the claims concern; `NaN` and fractional areas are
  not modelled).
* JavaScript strings are Lean `String`s; `<` on strings is code-unit
  lexicographic order in JS and code-point lexicographic order here (all
  strings involved are in the BMP, where these agree).
* Unbounded `while` loops are modelled by structurally recursive functions
  with an explicit fuel argument chosen large enough that, whenever the JS
  loop terminates (`everyDays ≥ 1`), the fuel is not exhausted.
-/

namespace ShowcaseX

/-! ## JavaScript string / number primitives -/

/-- ASCII decimal digit character, `48 + n` as in JS number formatting. -/
def decDigitChar (n : Nat) : Char := Char.ofNat (48 + n)

/-- Fueled big-endian decimal rendering of a natural number. -/
def natReprAux : Nat → Nat → String
  | 0, _ => ""
  | fuel + 1, n =>
    if n < 10 then String.mk [decDigitChar n]
    else natReprAux fuel (n / 10) ++ String.mk [decDigitChar (n % 10)]

/-- Models JS `String(n)` for a non-negative number. -/
def jsNatRepr (n : Nat) : String := natReprAux (n + 1) n

/-- Models JS `String(i)` for a whole number (sign then digits). -/
def jsIntRepr (i : Int) : String :=
  if i < 0 then "-" ++ jsNatRepr (-i).toNat else jsNatRepr i.toNat

/-- Models JS `s.padStart(2, '0')`. -/
def padStart2 (s : String) : String :=
  if s.length ≥ 2 then s else if s.length = 1 then "0" ++ s else "00"

/-- JS truthiness for strings: only the empty string is falsy. -/
def strTruthy (s : String) : Bool := s ≠ ""

/-- Models JS `a || b` where `a : string | undefined` and the result is again
`string | undefined` (`undefined` and `''` are falsy). -/
def jsOrOpt (a b : Option String) : Option String :=
  match a with
  | some s => if s = "" then b else some s
  | none => b

/-- Models JS `a || dflt` where `a : string | undefined` and `dflt : string`. -/
def jsOrStr (a : Option String) (dflt : String) : String :=
  match a with
  | some s => if s = "" then dflt else s
  | none => dflt

/-- Models JS `a || dflt` on two strings (`''` is falsy). -/
def jsOrStr2 (a dflt : String) : String := if a = "" then dflt else a

/-- Models JS `n || dflt` on whole numbers (`0` is falsy; `NaN` not modelled). -/
def jsOrInt (n dflt : Int) : Int := if n = 0 then dflt else n

/-! Core `String.trim`, `String.toLower`, `String.split` and the order on
`String` are defined by well-founded recursion over byte positions, which
does not evaluate by kernel reduction; since concrete runs of the embedded
program are checked by `decide`, the embedding uses the following
structurally recursive equivalents over `String.data`. -/

/-- `String.prototype.trim` (ASCII whitespace; the only whitespace the
program's inputs contain). -/
def jsTrim (s : String) : String :=
  String.mk (((s.data.dropWhile Char.isWhitespace).reverse.dropWhile
    Char.isWhitespace).reverse)

/-- `String.prototype.toLowerCase` on ASCII strings. -/
def jsToLower (s : String) : String := String.mk (s.data.map Char.toLower)

/-- `String.prototype.split` on a single separator character. -/
def splitCharAux (sep : Char) : List Char → List Char → List String
  | [], cur => [String.mk cur.reverse]
  | c :: rest, cur =>
    if c = sep then String.mk cur.reverse :: splitCharAux sep rest []
    else splitCharAux sep rest (c :: cur)

def splitChar (s : String) (sep : Char) : List String := splitCharAux sep s.data []

/-- Lexicographic (code-point) strict order on char lists, as a Boolean. -/
def lexLtB : List Char → List Char → Bool
  | [], [] => false
  | [], _ :: _ => true
  | _ :: _, [] => false
  | a :: as, b :: bs =>
    if a < b then true else if b < a then false else lexLtB as bs

/-- JS `<` on strings: UTF-16 code-unit order, which is code-point order on
the BMP strings this program compares. -/
def strLtB (a b : String) : Bool := lexLtB a.data b.data

theorem lexLtB_iff (l1 l2 : List Char) :
    lexLtB l1 l2 = true ↔ List.Lex (· < ·) l1 l2 := by
  induction l1 generalizing l2 with
  | nil =>
    cases l2 with
    | nil => simp [lexLtB]
    | cons b bs => simpa [lexLtB] using List.Lex.nil
  | cons a as ih =>
    cases l2 with
    | nil => simp [lexLtB]
    | cons b bs =>
      show (if a < b then true else if b < a then false else lexLtB as bs) = true ↔ _
      by_cases h1 : a < b
      · rw [if_pos h1]
        exact iff_of_true rfl (List.Lex.rel h1)
      · rw [if_neg h1]
        by_cases h2 : b < a
        · rw [if_pos h2]
          refine iff_of_false (by simp) ?_
          intro hlex
          cases hlex with
          | cons h => exact lt_irrefl _ h2
          | rel h => exact h1 h
        · rw [if_neg h2]
          have hab : a = b := le_antisymm (not_lt.mp h2) (not_lt.mp h1)
          subst hab
          rw [ih bs]
          exact List.Lex.cons_iff.symm

theorem strLtB_iff (a b : String) : strLtB a b = true ↔ a < b := by
  rw [String.lt_iff_toList_lt]
  exact lexLtB_iff a.data b.data

instance (priority := 2000) strLtDecB : DecidableRel (α := String) (· < ·) :=
  fun a b => decidable_of_iff (strLtB a b = true) (strLtB_iff a b)

instance (priority := 2000) strLeDecB : DecidableRel (α := String) (· ≤ ·) :=
  fun a b =>
    decidable_of_iff (strLtB b a = false)
      (by rw [← Bool.not_eq_true, strLtB_iff, not_lt])

/-! ## Civil calendar dates (JS `Date` at local midnight) -/

/-- A civil calendar date; models a JS `Date` at local midnight via its
`getFullYear()/getMonth()+1/getDate()` components. -/
structure Civil where
  y : Int
  m : Int
  d : Int
deriving DecidableEq, Repr

/-- Gregorian leap-year test. -/
def isLeap (y : Int) : Bool := y % 4 = 0 ∧ (y % 100 ≠ 0 ∨ y % 400 = 0)

/-- Length of month `m` of year `y` (months outside 1..12 never arise for the
inputs we use; the final catch-all mirrors December). -/
def daysInMonth (y m : Int) : Int :=
  if m = 1 then 31
  else if m = 2 then (if isLeap y then 29 else 28)
  else if m = 3 then 31
  else if m = 4 then 30
  else if m = 5 then 31
  else if m = 6 then 30
  else if m = 7 then 31
  else if m = 8 then 31
  else if m = 9 then 30
  else if m = 10 then 31
  else if m = 11 then 30
  else 31

/-- A real calendar date: month in 1..12, day within the month. -/
def Civil.valid (c : Civil) : Prop :=
  1 ≤ c.m ∧ c.m ≤ 12 ∧ 1 ≤ c.d ∧ c.d ≤ daysInMonth c.y c.m

instance (c : Civil) : Decidable c.valid := by unfold Civil.valid; infer_instance

/-- Forward day-of-month normalization (models the rollover JS `setDate`
performs when the day exceeds the month length). -/
def normFwd : Nat → Int → Int → Int → Civil
  | 0, y, m, dd => ⟨y, m, dd⟩
  | fuel + 1, y, m, dd =>
    if dd > daysInMonth y m then
      if m = 12 then normFwd fuel (y + 1) 1 (dd - daysInMonth y 12)
      else normFwd fuel y (m + 1) (dd - daysInMonth y m)
    else ⟨y, m, dd⟩

/-- Backward day-of-month normalization (JS `setDate` with a day below 1). -/
def normBwd : Nat → Int → Int → Int → Civil
  | 0, y, m, dd => ⟨y, m, dd⟩
  | fuel + 1, y, m, dd =>
    if dd < 1 then
      if m = 1 then normBwd fuel (y - 1) 12 (dd + daysInMonth (y - 1) 12)
      else normBwd fuel y (m - 1) (dd + daysInMonth y (m - 1))
    else ⟨y, m, dd⟩

/-- Models `addDays(date, days)` from the source: `d.setDate(d.getDate() + days)`
with JS day-of-month rollover semantics. -/
def addDays (c : Civil) (days : Int) : Civil :=
  let dd := c.d + days
  if dd < 1 then normBwd ((1 - dd).toNat + 1) c.y c.m dd
  else normFwd dd.toNat c.y c.m dd

/-- Proleptic-Gregorian day number (Rata-Die-style, epoch 1970-01-01 = 0).
This is a specification-side measure used in proofs and to size loop fuel; it
is the standard "days from civil" formula. -/
def rataDie (c : Civil) : Int :=
  let yv : Int := if c.m ≤ 2 then c.y - 1 else c.y
  let era : Int := yv / 400
  let yoe : Int := yv - era * 400
  let mp : Int := if c.m > 2 then c.m - 3 else c.m + 9
  let doy : Int := (153 * mp + 2) / 5 + c.d - 1
  let doe : Int := yoe * 365 + yoe / 4 - yoe / 100 + doy
  era * 146097 + doe - 719468

/-- Chronological strict order on civil dates (what JS `<` on midnight `Date`
objects computes, expressed on the calendar components). -/
def civLt (a b : Civil) : Prop :=
  a.y < b.y ∨ (a.y = b.y ∧ (a.m < b.m ∨ (a.m = b.m ∧ a.d < b.d)))

def civLe (a b : Civil) : Prop := civLt a b ∨ a = b

instance : DecidableRel civLt := by unfold civLt; exact fun a b => by infer_instance

instance : DecidableRel civLe := by unfold civLe; exact fun a b => by infer_instance

/-- Models `toISODate(date)` from the source:
``${yyyy}-${mm}-${dd}`` with 2-padded month and day. -/
def toISODate (c : Civil) : String :=
  jsIntRepr c.y ++ "-" ++ padStart2 (jsIntRepr c.m) ++ "-" ++ padStart2 (jsIntRepr c.d)

/-- Numeric value of a list of ASCII digit characters. -/
def charsToNat (cs : List Char) : Nat :=
  cs.foldl (fun n c => 10 * n + (c.toNat - 48)) 0

/-- Models `parseLooseDate(value)` from the source.  The `MM/DD/YYYY` fallback
branch in the source is dead code (its regex is identical to the `DD/MM/YYYY`
one, which either returns or yields `null` first), so it is not reproduced.
The validity round-trip check `new Date(y, m-1, d)` performs (plus the JS
two-digit-year quirk of that constructor, which makes years below 100 fail
the round-trip) is modelled by `100 ≤ y ∧ valid`. -/
def parseLooseDate (value : String) : Option Civil :=
  let raw := jsTrim value
  if raw = "" then none
  else
    match raw.data with
    | [y3, y2, y1, y0, '-', m1, m0, '-', d1, d0] =>
      if [y3, y2, y1, y0, m1, m0, d1, d0].all Char.isDigit then
        let c : Civil :=
          ⟨(charsToNat [y3, y2, y1, y0] : Nat), (charsToNat [m1, m0] : Nat),
            (charsToNat [d1, d0] : Nat)⟩
        -- `new Date(`${raw}T00:00:00`)` is an Invalid Date exactly when the
        -- components do not form a real calendar date.
        if c.valid then some c else none
      else none
    | _ =>
      let normalized :=
        String.mk ((raw.data.filter (fun c => ¬ c.isWhitespace)).map
          (fun c => if c = '.' ∨ c = '\\' ∨ c = '-' then '/' else c))
      match splitChar normalized '/' with
      | [ds, ms, ys] =>
        if 1 ≤ ds.length ∧ ds.length ≤ 2 ∧ ds.data.all Char.isDigit ∧
            1 ≤ ms.length ∧ ms.length ≤ 2 ∧ ms.data.all Char.isDigit ∧
            ys.length = 4 ∧ ys.data.all Char.isDigit then
          let c : Civil :=
            ⟨(charsToNat ys.data : Nat), (charsToNat ms.data : Nat),
              (charsToNat ds.data : Nat)⟩
          if 100 ≤ c.y ∧ c.valid then some c else none
        else none
      | _ => none

/-- Models `clampISO(iso, minISO, maxISO)` from the source (string order). -/
def clampISO (iso minISO maxISO : String) : String :=
  if iso < minISO then minISO
  else if maxISO < iso then maxISO
  else iso

/-! ## Data model (`farmingPlan.ts` interfaces)

`FarmingTaskType` and `TimeOfDay` are string unions in TypeScript and the
source casts unchecked oracle strings into them, so they are modelled as
`String`.  TypeScript-optional fields are `Option`s.  Firestore `Timestamp`s
are opaque to every claim and modelled as `Int`. -/

/-- `LocalizedText3` (from `services/gemini.ts`, not included under `src/`):
a three-locale text map, per the spec an "open per-language map"; fields may
be absent at runtime. -/
structure LocalizedText3 where
  en : Option String := none
  hi : Option String := none
  bn : Option String := none
deriving DecidableEq, Repr

structure FarmingWateringRule where
  startDay : Int
  endDay : Int
  everyDays : Int
  title : Option String := none
  titleI18n : Option LocalizedText3 := none
  notes : String
  notesI18n : Option LocalizedText3 := none
deriving DecidableEq, Repr

structure FarmingRecurringTaskRule where
  id : String
  type : String
  title : String
  titleI18n : Option LocalizedText3 := none
  startDay : Int
  endDay : Int
  everyDays : Int
  timeOfDay : Option String := none
  timeHHmm : Option String := none
  notes : Option String := none
  notesI18n : Option LocalizedText3 := none
deriving DecidableEq, Repr

structure FarmingOneOffTask where
  id : String
  type : String
  title : String
  titleI18n : Option LocalizedText3 := none
  dueDateISO : String
  timeOfDay : Option String := none
  timeHHmm : Option String := none
  notes : Option String := none
  notesI18n : Option LocalizedText3 := none
deriving DecidableEq, Repr

structure StoredFarmingPlan where
  id : String
  cropType : String
  cropName : String
  areaAcres : Int
  planTitleI18n : Option LocalizedText3 := none
  planOverviewI18n : Option LocalizedText3 := none
  plantingDateISO : String
  expectedHarvestDateISO : String
  cleanupAfterISO : String
  wateringRules : List FarmingWateringRule
  recurringTasks : List FarmingRecurringTaskRule
  tasks : List FarmingOneOffTask
  createdAt : Int
  updatedAt : Int
  status : String
  source : Option String := none
  generatedAt : Option Int := none
  geminiGenerationAttemptedAt : Option Int := none
  geminiGenerationError : Option String := none
deriving DecidableEq, Repr

structure FarmingTaskInstance where
  planId : String
  cropName : String
  planTitle : Option String := none
  planExpectedHarvestDateISO : Option String := none
  type : String
  title : String
  dueDateISO : String
  timeOfDay : Option String := none
  timeHHmm : Option String := none
  notes : Option String := none
deriving DecidableEq, Repr

/-! ## Small helpers from the source -/

/-- Models `normalizeLanguage(lang)`. -/
def normalizeLanguage (lang : Option String) : String :=
  let raw := jsToLower (jsTrim (lang.getD ""))
  if raw = "hi" ∨ raw = "hn" then "hi"
  else if raw = "bn" then "bn"
  else "en"

/-- Models `pickI18n(value, lang)` (JS `||` chains treat `''` and `undefined`
as falsy). -/
def pickI18n (value : Option LocalizedText3) (lang : String) : Option String :=
  match value with
  | none => none
  | some v =>
    let sel := if lang = "hi" then v.hi else if lang = "bn" then v.bn else v.en
    jsOrOpt sel (jsOrOpt v.en (jsOrOpt v.hi v.bn))

/-- Models `inferTimeOfDay(type)`. -/
def inferTimeOfDay (type : String) : String :=
  if type = "watering" then "morning"
  else if type = "fertilizer" then "morning"
  else if type = "pest" then "evening"
  else if type = "disease" then "morning"
  else if type = "field" then "afternoon"
  else if type = "harvest" then "morning"
  else "afternoon"

/-- Models `defaultTimeHHmmForTimeOfDay(tod)`. -/
def defaultTimeHHmmForTimeOfDay (tod : String) : String :=
  if tod = "morning" then "07:00"
  else if tod = "afternoon" then "13:00"
  else if tod = "evening" then "18:00"
  else if tod = "night" then "20:30"
  else "13:00"

/-- Lower-case ASCII letter or digit (the characters `sanitizeId` keeps). -/
def isIdChar (c : Char) : Bool := ('a' ≤ c ∧ c ≤ 'z') ∨ ('0' ≤ c ∧ c ≤ '9')

/-- Collapse every run of non-kept characters to a single `'-'`
(models `.replace(/[^a-z0-9]+/g, '-')`). -/
def collapseRuns (cs : List Char) : List Char :=
  (cs.foldl
    (fun acc c =>
      if isIdChar c then (c :: acc.1, false)
      else if acc.2 then acc
      else ('-' :: acc.1, true))
    (([] : List Char), false)).1.reverse

/-- Models `sanitizeId(value)`: trim, lower-case, collapse non-alphanumeric
runs to `-`, strip leading/trailing `-`, first 80 characters. -/
def sanitizeId (value : String) : String :=
  let cs := (jsToLower (jsTrim value)).data
  let collapsed := collapseRuns cs
  let stripped := (collapsed.dropWhile (· = '-')).reverse.dropWhile (· = '-') |>.reverse
  String.mk (stripped.take 80)

/-- Models JS `haystack.includes(needle)`. -/
def jsIncludes (haystack needle : String) : Bool :=
  decide (List.IsInfix needle.data haystack.data)

/-- Models `inferMaturityDays(cropNameOrType)` (substring matching). -/
def inferMaturityDays (cropNameOrType : String) : Int :=
  let c := jsToLower (jsTrim cropNameOrType)
  if jsIncludes c "rice" ∨ jsIncludes c "paddy" then 120
  else if jsIncludes c "wheat" then 120
  else if jsIncludes c "maize" ∨ jsIncludes c "corn" then 100
  else if jsIncludes c "potato" then 95
  else if jsIncludes c "tomato" then 95
  else if jsIncludes c "onion" then 125
  else if jsIncludes c "cotton" then 160
  else if jsIncludes c "sugarcane" then 330
  else 110

/-! ## The `localeCompare` model, JS `sort`, and JS object-keyed dedup -/

/-- ASCII case swap (used to model the ICU case tiebreak, see below). -/
def swapCaseChar (c : Char) : Char :=
  if 'a' ≤ c ∧ c ≤ 'z' then Char.ofNat (c.toNat - 32)
  else if 'A' ≤ c ∧ c ≤ 'Z' then Char.ofNat (c.toNat + 32)
  else c

def swapCaseStr (s : String) : String := String.mk (s.data.map swapCaseChar)

/-- Three-way code-point comparison of strings. -/
def cmpStr (a b : String) : Ordering :=
  if a < b then .lt else if b < a then .gt else .eq

/-- Models `String.prototype.localeCompare` (no arguments, so the host's
default locale) restricted to the ASCII strings this program compares: under
the ICU root/default collation the primary pass is case-insensitive, and when
two strings differ only in letter case the lowercase form sorts first
(tertiary case weight).  This is deliberately *not* code-point order:
`"apple".localeCompare("Banana") < 0` in JS although `"B" < "a"` by
code points. -/
def localeCompareModel (a b : String) : Ordering :=
  (cmpStr (jsToLower a) (jsToLower b)).then (cmpStr (swapCaseStr a) (swapCaseStr b))

/-- The comparator passed to `unique.sort` in `expandInRangeFromRules`:
due date first, then resolved title, both via `localeCompare`. -/
def jsSortCompare (a b : FarmingTaskInstance) : Ordering :=
  (localeCompareModel a.dueDateISO b.dueDateISO).then
    (localeCompareModel (jsOrStr2 a.title "") (jsOrStr2 b.title ""))

/-- "Not greater" relation of `jsSortCompare`; JS `sort` with a consistent
comparator produces the unique stable order w.r.t. this relation. -/
def instSortLE (a b : FarmingTaskInstance) : Prop := jsSortCompare a b ≠ .gt

instance : DecidableRel instSortLE := by
  unfold instSortLE; exact fun a b => by infer_instance

/-- JS `Array.prototype.sort` (stable since ES2019) with the instance
comparator, modelled as a stable insertion sort. -/
def sortInstances (l : List FarmingTaskInstance) : List FarmingTaskInstance :=
  List.insertionSort instSortLE l

/-- The comparator of `uniqueTasks.sort` in `buildHeuristicPlan`. -/
def taskDueLE (a b : FarmingOneOffTask) : Prop :=
  localeCompareModel a.dueDateISO b.dueDateISO ≠ .gt

instance : DecidableRel taskDueLE := by
  unfold taskDueLE; exact fun a b => by infer_instance

/-- Insert-or-replace in an association list: a later assignment to an
existing key keeps the key's position but replaces the value, as assignment
to a string key of a JS object does. -/
def upsertAssoc {α : Type} (acc : List (String × α)) (k : String) (v : α) :
    List (String × α) :=
  match acc with
  | [] => [(k, v)]
  | (k', v') :: t => if k' = k then (k', v) :: t else (k', v') :: upsertAssoc t k v

/-- Models `Object.values(l.reduce((acc, x) => { acc[key(x)] = x; return acc }, {}))`:
values in first-insertion key order, each key holding the last value written. -/
def jsObjectValues {α : Type} (key : α → String) (l : List α) : List α :=
  (l.foldl (fun acc x => upsertAssoc acc (key x) x) []).map (·.2)

/-! ## `buildHeuristicPlan` -/

/-- Result type of `buildHeuristicPlan`
(`Omit<StoredFarmingPlan, 'id' | 'createdAt' | 'updatedAt'>`, restricted to
the fields the object literal actually provides). -/
structure HeuristicPlanBase where
  cropType : String
  cropName : String
  areaAcres : Int
  plantingDateISO : String
  expectedHarvestDateISO : String
  cleanupAfterISO : String
  wateringRules : List FarmingWateringRule
  recurringTasks : List FarmingRecurringTaskRule
  tasks : List FarmingOneOffTask
  status : String
  source : String
deriving DecidableEq, Repr

/-- The `addRecurring` local helper of `buildHeuristicPlan`. -/
def heuristicRecurring (ruleId : Option String) (type title : String)
    (startDay endDay everyDays : Int) (timeOfDay timeHHmm : Option String)
    (notes : Option String) : FarmingRecurringTaskRule :=
  let inferred := jsOrStr timeOfDay (inferTimeOfDay type)
  { id := jsOrStr ruleId (sanitizeId type ++ "-" ++ sanitizeId title)
    type := type
    title := title
    startDay := startDay
    endDay := endDay
    everyDays := everyDays
    timeOfDay := some inferred
    timeHHmm := some (jsOrStr timeHHmm (defaultTimeHHmmForTimeOfDay inferred))
    notes := notes }

/-- The `addTask` local helper of `buildHeuristicPlan`. -/
def heuristicTask (taskId : Option String) (type title dueDateISO : String)
    (timeOfDay timeHHmm : Option String) (notes : Option String) :
    FarmingOneOffTask :=
  let inferred := jsOrStr timeOfDay (inferTimeOfDay type)
  { id := jsOrStr taskId
      (sanitizeId type ++ "-" ++ sanitizeId title ++ "-" ++ dueDateISO)
    type := type
    title := title
    dueDateISO := dueDateISO
    timeOfDay := some inferred
    timeHHmm := some (jsOrStr timeHHmm (defaultTimeHHmmForTimeOfDay inferred))
    notes := notes }

/-- Models `buildHeuristicPlan(params)`.  `Math.round` of the harvest/planting
difference is the exact whole-day difference here because dates are modelled
at exact midnights (DST fractions are not modelled). -/
def buildHeuristicPlan (cropType cropName : String) (areaAcres : Int)
    (plantingDate : Civil) (expectedHarvestDate : Option Civil) :
    HeuristicPlanBase :=
  let maturityDays : Int :=
    match expectedHarvestDate with
    | some h => max 1 (rataDie h - rataDie plantingDate)
    | none => inferMaturityDays (jsOrStr2 cropName cropType)
  let harvest := expectedHarvestDate.getD (addDays plantingDate maturityDays)
  let cleanupAfter := addDays harvest 1
  let month := plantingDate.m
  let isMonsoonWindow := 6 ≤ month ∧ month ≤ 9
  let cropKey := jsToLower (jsTrim (jsOrStr2 cropName cropType))
  let recurringTasks : List FarmingRecurringTaskRule :=
    [heuristicRecurring none "field"
        "Field scouting (pests, disease, weeds, moisture)" 7 maturityDays 7
        none none
        (some "Walk the plot early morning; check undersides of leaves, new growth, and waterlogging. Act only if thresholds are met.")] ++
    (if isMonsoonWindow then
      [heuristicRecurring none "field"
          "Check drainage & remove standing water (monsoon)" 0 maturityDays 5
          none none
          (some "Prevent root rot and nutrient loss; keep bunds/field channels clear.")]
    else [])
  let cropWatering : List FarmingWateringRule :=
    if jsIncludes cropKey "rice" ∨ jsIncludes cropKey "paddy" then
      [{ startDay := 0, endDay := 30, everyDays := 1
         notes := "Maintain shallow water layer (2–3 cm) after establishment; skip if continuous rainfall and waterlogging risk." },
       { startDay := 31, endDay := max 31 (maturityDays - 15), everyDays := 2
         notes := "Irrigate to keep soil moist; avoid long dry gaps during tillering and panicle initiation." },
       { startDay := max 0 (maturityDays - 14), endDay := maturityDays
         everyDays := 9999
         notes := "Stop irrigation ~10–14 days before harvest to improve grain maturity and ease harvesting." }]
    else if jsIncludes cropKey "wheat" then []
    else
      [{ startDay := 0, endDay := 14, everyDays := 1
         notes := "Keep soil consistently moist for establishment; avoid waterlogging. Mulch helps in hot weather." },
       { startDay := 15, endDay := max 15 (maturityDays - 10), everyDays := 2
         notes :=
           if isMonsoonWindow then
             "Irrigate during dry spells; skip after good rainfall. Ensure drainage to prevent fungal diseases."
           else
             "Irrigate every 2 days (adjust for soil type); avoid wetting foliage late evening." },
       { startDay := max 0 (maturityDays - 9), endDay := maturityDays
         everyDays := 3
         notes := "Reduce irrigation close to harvest to improve quality and reduce post-harvest rot." }]
  let cropTasks : List FarmingOneOffTask :=
    if jsIncludes cropKey "rice" ∨ jsIncludes cropKey "paddy" then
      [heuristicTask none "fertilizer"
          "Basal fertilization (FYM/compost + recommended NPK) and zinc if needed"
          (toISODate plantingDate) none none
          (some "Apply well-decomposed FYM/compost. Use soil-test based NPK; consider zinc sulfate in zinc-deficient areas."),
       heuristicTask none "fertilizer" "Top dress nitrogen (tillering stage)"
          (toISODate (addDays plantingDate 25)) none none
          (some "Split N improves uptake; apply just before irrigation or rainfall."),
       heuristicTask none "fertilizer"
          "Top dress nitrogen/potash (panicle initiation)"
          (toISODate (addDays plantingDate 55)) none none
          (some "Critical for grain formation; avoid over-N in cloudy/humid conditions."),
       heuristicTask none "pest"
          "Install pheromone/light traps (stem borer/leaf folder monitoring)"
          (toISODate (addDays plantingDate 10)) none none
          (some "Use traps for monitoring; spray only if infestation crosses thresholds.")]
    else if jsIncludes cropKey "wheat" then
      [heuristicTask none "watering" "Irrigation #1 (Crown Root Initiation - CRI)"
          (toISODate (addDays plantingDate 21)) none none
          (some "Most critical irrigation for wheat. If rainfall occurred recently and soil is moist, adjust accordingly."),
       heuristicTask none "watering" "Irrigation #2 (Tillering)"
          (toISODate (addDays plantingDate 40)) none none
          (some "Avoid water stress; do not over-irrigate in cold foggy spells."),
       heuristicTask none "watering" "Irrigation #3 (Jointing/Booting)"
          (toISODate (addDays plantingDate 60)) none none
          (some "Supports spike development; ensure good drainage after irrigation."),
       heuristicTask none "watering" "Irrigation #4 (Heading/Flowering)"
          (toISODate (addDays plantingDate 80)) none none
          (some "Avoid stress; irrigate in morning hours when possible."),
       heuristicTask none "watering" "Irrigation #5 (Milking/Dough stage)"
          (toISODate (addDays plantingDate 95)) none none
          (some "Last critical irrigation; stop irrigation 10–12 days before harvest."),
       heuristicTask none "fertilizer" "Basal dose (FYM/compost + recommended NPK)"
          (toISODate plantingDate) none none
          (some "Use soil-test based recommendations; place fertilizer below seed zone where applicable."),
       heuristicTask none "fertilizer"
          "Top dress nitrogen (after first irrigation / CRI)"
          (toISODate (addDays plantingDate 22)) none none
          (some "Split N reduces lodging risk and improves grain filling."),
       heuristicTask none "disease"
          "Rust/leaf blight monitoring and preventive spray decision"
          (toISODate (addDays plantingDate 55)) none none
          (some "In humid/foggy weather, rust risk rises. Use resistant varieties and spray only if symptoms appear.")]
    else
      [heuristicTask none "fertilizer"
          "Basal nutrition (FYM/compost + recommended NPK)"
          (toISODate plantingDate) none none
          (some "Incorporate compost and basal P & K. Use soil test when available. Apply biofertilizers if using organic methods."),
       heuristicTask none "fertilizer"
          "Top dressing (nitrogen) + micronutrient check"
          (toISODate (addDays plantingDate 25)) none none
          (some "Split nitrogen improves uptake. If leaf yellowing/poor growth, consider micronutrients (Zn/B) as per symptoms."),
       heuristicTask none "pest" "Install sticky/pheromone traps (monitoring)"
          (toISODate (addDays plantingDate 10)) none none
          (some "Use traps for monitoring; keep field clean to reduce pest carryover."),
       heuristicTask none "disease"
          "Preventive fungal risk check (humidity/leaf wetness)"
          (toISODate (addDays plantingDate 20)) none none
          (some "Avoid overhead irrigation at night; ensure airflow. Use recommended protectant fungicide only if risk is high.")]
  let tasks : List FarmingOneOffTask :=
    cropTasks ++
    [heuristicTask none "harvest"
        "Harvest window starts (plan labor, bags, storage, drying)"
        (toISODate harvest) none none
        (some "Harvest at physiological maturity; avoid harvesting immediately after rain. Dry/grade produce for better price.")]
  let uniqueTasks :=
    List.insertionSort taskDueLE (jsObjectValues (·.id) tasks)
  { cropType := cropType
    cropName := cropName
    areaAcres := areaAcres
    plantingDateISO := toISODate plantingDate
    expectedHarvestDateISO := toISODate harvest
    cleanupAfterISO := toISODate cleanupAfter
    wateringRules := cropWatering
    recurringTasks := recurringTasks
    tasks := uniqueTasks
    status := "active"
    source := "heuristic" }

/-! ## `expandInRangeFromRules` -/

/-- The cursor-advance loop shared by both cadence loops:
`while (cursor < rangeStart) { cursor = addDays(cursor, every); if (cursor > last) break; }`.
The fuel is sized by the caller so that it is never exhausted when
`every ≥ 1` (the only case in which the JS loop terminates). -/
def occAdvance : Nat → Civil → Civil → Civil → Int → Civil
  | 0, cursor, _, _, _ => cursor
  | fuel + 1, cursor, rangeStart, last, every =>
    if civLt cursor rangeStart then
      let c := addDays cursor every
      if civLt last c then c else occAdvance fuel c rangeStart last every
    else cursor

/-- The emission loop of `expandInRangeFromRules`:
`while (cursor <= last) { due = toISODate(cursor); if (inWindow(due)) push; if (due > safeEndISO) break; cursor = addDays(cursor, every); }`,
returning the emitted cursor dates. -/
def occEmit : Nat → Civil → Civil → Int → String → String → List Civil
  | 0, _, _, _, _, _ => []
  | fuel + 1, cursor, last, every, safeStartISO, safeEndISO =>
    if civLe cursor last then
      let due := toISODate cursor
      let keep := safeStartISO ≤ due ∧ due ≤ safeEndISO
      let rest :=
        if safeEndISO < due then []
        else occEmit fuel (addDays cursor every) last every safeStartISO safeEndISO
      (if keep then [cursor] else []) ++ rest
    else []

/-- Emitted occurrence dates of one cadence rule of `expandInRangeFromRules`. -/
def cadenceDates (planting : Civil) (startDay endDay everyDays : Int)
    (safeStartISO safeEndISO : String) : List Civil :=
  let first := addDays planting startDay
  let last := addDays planting endDay
  let rangeStart := (parseLooseDate safeStartISO).getD first
  let cursor := occAdvance ((rataDie rangeStart - rataDie first).toNat + 2)
    first rangeStart last everyDays
  occEmit ((rataDie last - rataDie cursor).toNat + 2) cursor last everyDays
    safeStartISO safeEndISO

/-- `pickI18n(plan.planTitleI18n, lang) || plan.cropName`. -/
def resolvedPlanTitle (plan : StoredFarmingPlan) (lang : String) : String :=
  jsOrStr (pickI18n plan.planTitleI18n lang) plan.cropName

/-- Instance built for an in-window one-off task. -/
def oneOffInstance (plan : StoredFarmingPlan) (lang : String)
    (t : FarmingOneOffTask) : FarmingTaskInstance :=
  let timeOfDay := jsOrStr t.timeOfDay (inferTimeOfDay t.type)
  { planId := plan.id
    cropName := plan.cropName
    planTitle := some (resolvedPlanTitle plan lang)
    planExpectedHarvestDateISO := some plan.expectedHarvestDateISO
    type := t.type
    title := jsOrStr (pickI18n t.titleI18n lang) t.title
    dueDateISO := t.dueDateISO
    timeOfDay := some timeOfDay
    timeHHmm := some (jsOrStr t.timeHHmm (defaultTimeHHmmForTimeOfDay timeOfDay))
    notes := jsOrOpt (pickI18n t.notesI18n lang) t.notes }

/-- Instance built for one occurrence of a recurring task rule. -/
def recurringInstance (plan : StoredFarmingPlan) (lang : String)
    (r : FarmingRecurringTaskRule) (dueDateISO : String) : FarmingTaskInstance :=
  let timeOfDay := jsOrStr r.timeOfDay (inferTimeOfDay r.type)
  { planId := plan.id
    cropName := plan.cropName
    planTitle := some (resolvedPlanTitle plan lang)
    planExpectedHarvestDateISO := some plan.expectedHarvestDateISO
    type := r.type
    title := jsOrStr (pickI18n r.titleI18n lang) r.title
    dueDateISO := dueDateISO
    timeOfDay := some timeOfDay
    timeHHmm := some (jsOrStr r.timeHHmm (defaultTimeHHmmForTimeOfDay timeOfDay))
    notes := jsOrOpt (pickI18n r.notesI18n lang) r.notes }

/-- Instance built for one occurrence of a watering rule. -/
def wateringInstance (plan : StoredFarmingPlan) (lang : String)
    (w : FarmingWateringRule) (dueDateISO : String) : FarmingTaskInstance :=
  { planId := plan.id
    cropName := plan.cropName
    planTitle := some (resolvedPlanTitle plan lang)
    planExpectedHarvestDateISO := some plan.expectedHarvestDateISO
    type := "watering"
    title := jsOrStr (jsOrOpt (pickI18n w.titleI18n lang) w.title)
      "Water/irrigate (as per stage)"
    dueDateISO := dueDateISO
    timeOfDay := some "morning"
    timeHHmm := some (defaultTimeHHmmForTimeOfDay "morning")
    notes := some (jsOrStr (pickI18n w.notesI18n lang) w.notes) }

/-- The deduplication key `` `${task.planId}|${task.dueDateISO}|${task.title}` ``. -/
def instKey (t : FarmingTaskInstance) : String :=
  t.planId ++ "|" ++ t.dueDateISO ++ "|" ++ t.title

/-- The watering-rule emissions of one `expandInRangeFromRules` call (the
third block of pushes; a rule with `everyDays >= 9999` is skipped by
`continue`).  These are the last-emitted instances before deduplication. -/
def wateringEmissionsOf (plan : StoredFarmingPlan)
    (startISO endISO : String) (language : Option String) :
    List FarmingTaskInstance :=
  match parseLooseDate plan.plantingDateISO with
  | none => []
  | some planting =>
    let lang := normalizeLanguage language
    let safeStartISO := clampISO startISO plan.plantingDateISO plan.expectedHarvestDateISO
    let safeEndISO := clampISO endISO plan.plantingDateISO plan.expectedHarvestDateISO
    if safeEndISO < safeStartISO then []
    else
      plan.wateringRules.flatMap fun w =>
        if w.everyDays ≥ 9999 then []
        else
          (cadenceDates planting w.startDay w.endDay w.everyDays
              safeStartISO safeEndISO).map
            (fun o => wateringInstance plan lang w (toISODate o))

/-- The one-off and recurring emissions of one `expandInRangeFromRules` call
(the first two blocks of pushes, in push order). -/
def nonWateringEmissionsOf (plan : StoredFarmingPlan)
    (startISO endISO : String) (language : Option String) :
    List FarmingTaskInstance :=
  match parseLooseDate plan.plantingDateISO with
  | none => []
  | some planting =>
    let lang := normalizeLanguage language
    let safeStartISO := clampISO startISO plan.plantingDateISO plan.expectedHarvestDateISO
    let safeEndISO := clampISO endISO plan.plantingDateISO plan.expectedHarvestDateISO
    if safeEndISO < safeStartISO then []
    else
      (plan.tasks.filter
          (fun t => decide (safeStartISO ≤ t.dueDateISO ∧ t.dueDateISO ≤ safeEndISO))).map
        (oneOffInstance plan lang) ++
      (plan.recurringTasks.flatMap fun r =>
        (cadenceDates planting r.startDay r.endDay r.everyDays
            safeStartISO safeEndISO).map
          (fun o => recurringInstance plan lang r (toISODate o)))

/-- The full `results` array of `expandInRangeFromRules` before
deduplication: one-off pushes, then recurring pushes, then watering pushes.
Both early returns of the source (`plantingDateISO` fails to parse, empty
clamped window) produce `[]`. -/
def emittedResults (plan : StoredFarmingPlan) (startISO endISO : String)
    (language : Option String) : List FarmingTaskInstance :=
  nonWateringEmissionsOf plan startISO endISO language ++
    wateringEmissionsOf plan startISO endISO language

/-- Models `expandInRangeFromRules({plan, startISO, endISO, language})`:
emit, deduplicate by `(planId, dueDate, title)` keeping the last write per
key, then sort by due date / resolved title via `localeCompare`.  (On the two
early-return paths every stage is the empty list, so the composition agrees
with the source's `return []`.) -/
def expandInRangeFromRules (plan : StoredFarmingPlan)
    (startISO endISO : String) (language : Option String) :
    List FarmingTaskInstance :=
  sortInstances (jsObjectValues instKey (emittedResults plan startISO endISO language))

/-! ## `expandUpcomingFromRules` -/

/-- The emission loop of `expandUpcomingFromRules`:
`while (cursor <= end && cursor <= last) { push; cursor = addDays(cursor, every); }`. -/
def upcEmit : Nat → Civil → Civil → Civil → Int → List Civil
  | 0, _, _, _, _ => []
  | fuel + 1, cursor, endDate, last, every =>
    if civLe cursor endDate ∧ civLe cursor last then
      cursor :: upcEmit fuel (addDays cursor every) endDate last every
    else []

/-- Occurrence dates of one cadence rule of `expandUpcomingFromRules`. -/
def upcomingDates (planting : Civil) (startDay endDay everyDays : Int)
    (start endDate : Civil) : List Civil :=
  let first := addDays planting startDay
  let last := addDays planting endDay
  let cursor := occAdvance ((rataDie start - rataDie first).toNat + 2)
    first start last everyDays
  upcEmit ((rataDie endDate - rataDie cursor).toNat +
      (rataDie last - rataDie cursor).toNat + 2)
    cursor endDate last everyDays

/-- Models `expandUpcomingFromRules({plan, windowDays, language})`.  The
source reads the current day via `new Date()`; that impure read is the
`today` parameter here (`start` is today's midnight).  Note that unlike the
windowed expander this function neither clamps the window to the plan range,
nor filters cadence occurrences by an `inWindow` check, nor deduplicates or
sorts. -/
def expandUpcomingFromRules (today : Civil) (plan : StoredFarmingPlan)
    (windowDays : Int) (language : Option String) : List FarmingTaskInstance :=
  match parseLooseDate plan.plantingDateISO with
  | none => []
  | some planting =>
    let lang := normalizeLanguage language
    let start := today
    let endDate := addDays start windowDays
    let oneOffs :=
      (plan.tasks.filter
          (fun t =>
            decide (toISODate start ≤ t.dueDateISO ∧ t.dueDateISO ≤ toISODate endDate))).map
        (fun t =>
          ({ planId := plan.id
             cropName := plan.cropName
             planTitle := some (resolvedPlanTitle plan lang)
             planExpectedHarvestDateISO := some plan.expectedHarvestDateISO
             type := t.type
             title := jsOrStr (pickI18n t.titleI18n lang) t.title
             dueDateISO := t.dueDateISO
             notes := jsOrOpt (pickI18n t.notesI18n lang) t.notes } :
            FarmingTaskInstance))
    let recurring :=
      plan.recurringTasks.flatMap fun r =>
        (upcomingDates planting r.startDay r.endDay r.everyDays start endDate).map
          (fun o =>
            { planId := plan.id
              cropName := plan.cropName
              planTitle := some (resolvedPlanTitle plan lang)
              planExpectedHarvestDateISO := some plan.expectedHarvestDateISO
              type := r.type
              title := jsOrStr (pickI18n r.titleI18n lang) r.title
              dueDateISO := toISODate o
              notes := jsOrOpt (pickI18n r.notesI18n lang) r.notes })
    let watering :=
      plan.wateringRules.flatMap fun w =>
        if w.everyDays ≥ 9999 then []
        else
          (upcomingDates planting w.startDay w.endDay w.everyDays start endDate).map
            (fun o =>
              { planId := plan.id
                cropName := plan.cropName
                planTitle := some (resolvedPlanTitle plan lang)
                planExpectedHarvestDateISO := some plan.expectedHarvestDateISO
                type := "watering"
                title := jsOrStr (jsOrOpt (pickI18n w.titleI18n lang) w.title)
                  "Water/irrigate (as per stage)"
                dueDateISO := toISODate o
                notes := some (jsOrStr (pickI18n w.notesI18n lang) w.notes) })
    oneOffs ++ recurring ++ watering

/-! ## `upsertFarmingPlanForCurrentUser`

The generation oracle (`services/gemini.ts`, not included under `src/`) is an
external collaborator; its response shape below is reconstructed from the
fields `upsertFarmingPlanForCurrentUser` reads off `generated` and from the
spec's oracle interface (§6).  The ambient effects of the source function are
parameters: `signedIn` (`auth.currentUser`), `geminiConfigured`
(`isGeminiConfigured()`), `oracle` (the outcome `generateLocalizedFarmingPlanV1`
would have — `.error msg` models a thrown failure), `now` (`Timestamp.now()`)
and `existing` (the Firestore document currently stored under the derived
plan id, `none` if absent).  The result records the returned `planId`, the
document stored at that id after the call (merge-write semantics: fields a
written document does not provide survive from the stored one), whether the
oracle was invoked, and how many `setDoc` calls were made. -/

structure GeminiDatesV1 where
  plantingDateISO : String
  expectedHarvestDateISO : Option String := none
deriving DecidableEq, Repr

structure GeminiWateringRuleV1 where
  startDay : Int
  endDay : Int
  everyDays : Int
  title : Option LocalizedText3 := none
  notes : Option LocalizedText3 := none
deriving DecidableEq, Repr

structure GeminiRecurringTaskV1 where
  type : String
  title : Option LocalizedText3 := none
  startDay : Int
  endDay : Int
  everyDays : Int
  notes : Option LocalizedText3 := none
deriving DecidableEq, Repr

structure GeminiOneOffTaskV1 where
  type : String
  title : Option LocalizedText3 := none
  dueDateISO : Option String := none
  notes : Option LocalizedText3 := none
deriving DecidableEq, Repr

structure GeminiPlanV1 where
  title : LocalizedText3
  overview : LocalizedText3
  dates : GeminiDatesV1
  wateringRules : List GeminiWateringRuleV1 := []
  recurringTasks : List GeminiRecurringTaskV1 := []
  oneOffTasks : List GeminiOneOffTaskV1 := []
deriving DecidableEq, Repr

/-- Oracle watering rule → stored watering rule (success path). -/
def geminiWateringRule (w : GeminiWateringRuleV1) : FarmingWateringRule :=
  { startDay := jsOrInt w.startDay 0
    endDay := jsOrInt w.endDay 0
    everyDays := max 1 (jsOrInt w.everyDays 1)
    title := some (jsTrim ((w.title.bind (·.en)).getD ""))
    titleI18n := w.title
    notes := jsTrim ((w.notes.bind (·.en)).getD "")
    notesI18n := w.notes }

/-- Oracle recurring task → stored recurring rule (success path). -/
def geminiRecurringRule (idx : Nat) (r : GeminiRecurringTaskV1) :
    FarmingRecurringTaskRule :=
  let titleEn := jsTrim ((r.title.bind (·.en)).getD "")
  let inferred := inferTimeOfDay (jsOrStr2 r.type "general")
  { id := sanitizeId r.type ++ "-" ++
      sanitizeId (jsOrStr2 titleEn ("task-" ++ jsNatRepr idx))
    type := jsOrStr2 r.type "general"
    title := jsOrStr2 titleEn "Task"
    titleI18n := r.title
    startDay := jsOrInt r.startDay 0
    endDay := jsOrInt r.endDay 0
    everyDays := max 1 (jsOrInt r.everyDays 7)
    timeOfDay := some inferred
    timeHHmm := some (defaultTimeHHmmForTimeOfDay inferred)
    notes := some (jsTrim ((r.notes.bind (·.en)).getD ""))
    notesI18n := r.notes }

/-- Oracle one-off task → stored one-off task (success path). -/
def geminiOneOffTask (idx : Nat) (t : GeminiOneOffTaskV1) : FarmingOneOffTask :=
  let titleEn := jsTrim ((t.title.bind (·.en)).getD "")
  let due := jsTrim (t.dueDateISO.getD "")
  let inferred := inferTimeOfDay (jsOrStr2 t.type "general")
  { id := sanitizeId t.type ++ "-" ++
      sanitizeId (jsOrStr2 titleEn ("task-" ++ jsNatRepr idx)) ++ "-" ++ due
    type := jsOrStr2 t.type "general"
    title := jsOrStr2 titleEn "Task"
    titleI18n := t.title
    dueDateISO := due
    timeOfDay := some inferred
    timeHHmm := some (defaultTimeHHmmForTimeOfDay inferred)
    notes := some (jsTrim ((t.notes.bind (·.en)).getD ""))
    notesI18n := t.notes }

inductive UpsertError where
  | authError
  | invalidPlantingDate
deriving DecidableEq, Repr

structure UpsertResult where
  planId : String
  store : StoredFarmingPlan
  oracleInvoked : Bool
  writes : Nat
deriving DecidableEq, Repr

/-- Models `upsertFarmingPlanForCurrentUser(params)`.
`String(Math.round((Number(areaAcres) || 0) * 100) / 100).replace('.', 'p')`
equals `String(areaAcres)` for the whole-number areas modelled here. -/
def upsertFarmingPlanForCurrentUser (signedIn geminiConfigured : Bool)
    (oracle : Except String GeminiPlanV1) (now : Int)
    (existing : Option StoredFarmingPlan)
    (cropTypeIn cropNameIn : String) (areaAcres : Int)
    (plantingDateStr : String) (expectedHarvestDateStr : Option String)
    (sourceParam : Option String) : Except UpsertError UpsertResult :=
  if ¬ signedIn then .error .authError
  else
    match parseLooseDate plantingDateStr with
    | none => .error .invalidPlantingDate
    | some planting =>
      let expectedHarvest : Option Civil :=
        match expectedHarvestDateStr with
        | some s => parseLooseDate s
        | none => none
      let cropName := jsTrim (jsOrStr2 cropNameIn (jsOrStr2 cropTypeIn ""))
      let cropType := jsTrim (jsOrStr2 cropTypeIn cropName)
      let planId := sanitizeId (jsOrStr2 cropName cropType) ++ "-" ++
        toISODate planting ++ "-a" ++ sanitizeId (jsIntRepr areaAcres)
      let hasGeminiContent :=
        (existing.bind (·.planTitleI18n)).isSome ∧
          (existing.bind (·.planOverviewI18n)).isSome
      let alreadyAttemptedGemini :=
        (existing.bind (·.geminiGenerationAttemptedAt)).isSome
      if geminiConfigured ∧ ¬ hasGeminiContent ∧ ¬ alreadyAttemptedGemini then
        let plantingISO := toISODate planting
        let cropDisplay := jsOrStr2 cropName cropType
        match oracle with
        | .error _message =>
          -- `catch` path: a first merge-write stamps the attempt
          -- (`geminiGenerationAttemptedAt`, `geminiGenerationError`,
          -- `updatedAt`), then the heuristic fallback document is
          -- merge-written; fields absent from the final write survive from
          -- the stored document, whose other fields the stamp write left
          -- untouched.
          let base := buildHeuristicPlan cropType cropDisplay areaAcres
            planting expectedHarvest
          let planDoc : StoredFarmingPlan :=
            { id := planId
              cropType := base.cropType
              cropName := base.cropName
              areaAcres := base.areaAcres
              planTitleI18n := existing.bind (·.planTitleI18n)
              planOverviewI18n := existing.bind (·.planOverviewI18n)
              plantingDateISO := base.plantingDateISO
              expectedHarvestDateISO := base.expectedHarvestDateISO
              cleanupAfterISO := base.cleanupAfterISO
              wateringRules := base.wateringRules
              recurringTasks := base.recurringTasks
              tasks := base.tasks
              createdAt := (existing.map (·.createdAt)).getD now
              updatedAt := now
              status := base.status
              source := some (jsOrStr sourceParam base.source)
              generatedAt := existing.bind (·.generatedAt)
              geminiGenerationAttemptedAt := some now
              geminiGenerationError := some (jsOrStr
                (existing.bind (·.geminiGenerationError))
                "Gemini plan generation failed") }
          .ok { planId := planId, store := planDoc, oracleInvoked := true, writes := 2 }
        | .ok generated =>
          let harvestISO0 := jsOrStr generated.dates.expectedHarvestDateISO
            ((expectedHarvest.map toISODate).getD plantingISO)
          -- Safety clamp: ensure the harvest date is after the planting date.
          let harvestISO :=
            if harvestISO0 ≤ plantingISO then toISODate (addDays planting 1)
            else harvestISO0
          let harvest := (parseLooseDate harvestISO).getD
            (expectedHarvest.getD (addDays planting (inferMaturityDays cropDisplay)))
          let cleanupAfterISO := toISODate (addDays harvest 1)
          let planDoc : StoredFarmingPlan :=
            { id := planId
              cropType := cropType
              cropName := cropDisplay
              areaAcres := areaAcres
              planTitleI18n := some generated.title
              planOverviewI18n := some generated.overview
              plantingDateISO := generated.dates.plantingDateISO
              expectedHarvestDateISO := harvestISO
              cleanupAfterISO := cleanupAfterISO
              wateringRules := generated.wateringRules.map geminiWateringRule
              recurringTasks := generated.recurringTasks.mapIdx geminiRecurringRule
              tasks := generated.oneOffTasks.mapIdx geminiOneOffTask
              createdAt := (existing.map (·.createdAt)).getD now
              updatedAt := now
              status := "active"
              source := some (jsOrStr sourceParam "gemini")
              generatedAt := some now
              geminiGenerationAttemptedAt := some now
              geminiGenerationError := some "" }
          .ok { planId := planId, store := planDoc, oracleInvoked := true, writes := 1 }
      else
        -- Fallback: heuristic schedule (gemini not configured, or content /
        -- attempt already recorded).  Note this path re-runs
        -- `buildHeuristicPlan` and merge-writes its output even when a full
        -- plan document is already stored.
        let base := buildHeuristicPlan cropType (jsOrStr2 cropName cropType)
          areaAcres planting expectedHarvest
        let planDoc : StoredFarmingPlan :=
          { id := planId
            cropType := base.cropType
            cropName := base.cropName
            areaAcres := base.areaAcres
            planTitleI18n := existing.bind (·.planTitleI18n)
            planOverviewI18n := existing.bind (·.planOverviewI18n)
            plantingDateISO := base.plantingDateISO
            expectedHarvestDateISO := base.expectedHarvestDateISO
            cleanupAfterISO := base.cleanupAfterISO
            wateringRules := base.wateringRules
            recurringTasks := base.recurringTasks
            tasks := base.tasks
            createdAt := (existing.map (·.createdAt)).getD now
            updatedAt := now
            status := base.status
            source := some (jsOrStr sourceParam base.source)
            generatedAt := existing.bind (·.generatedAt)
            geminiGenerationAttemptedAt := existing.bind (·.geminiGenerationAttemptedAt)
            geminiGenerationError := existing.bind (·.geminiGenerationError) }
        .ok { planId := planId, store := planDoc, oracleInvoked := false, writes := 1 }

/-! ## Calendar lemmas -/

theorem isLeap_iff (y : Int) :
    isLeap y = true ↔ (y % 4 = 0 ∧ (y % 100 ≠ 0 ∨ y % 400 = 0)) := by
  simp [isLeap]

theorem isLeap_false_iff (y : Int) :
    isLeap y = false ↔ ¬ (y % 4 = 0 ∧ (y % 100 ≠ 0 ∨ y % 400 = 0)) := by
  simp [isLeap]

theorem dim1 (y : Int) : daysInMonth y 1 = 31 := rfl
theorem dim2 (y : Int) : daysInMonth y 2 = if isLeap y then 29 else 28 := rfl
theorem dim3 (y : Int) : daysInMonth y 3 = 31 := rfl
theorem dim4 (y : Int) : daysInMonth y 4 = 30 := rfl
theorem dim5 (y : Int) : daysInMonth y 5 = 31 := rfl
theorem dim6 (y : Int) : daysInMonth y 6 = 30 := rfl
theorem dim7 (y : Int) : daysInMonth y 7 = 31 := rfl
theorem dim8 (y : Int) : daysInMonth y 8 = 31 := rfl
theorem dim9 (y : Int) : daysInMonth y 9 = 30 := rfl
theorem dim10 (y : Int) : daysInMonth y 10 = 31 := rfl
theorem dim11 (y : Int) : daysInMonth y 11 = 30 := rfl
theorem dim12 (y : Int) : daysInMonth y 12 = 31 := rfl

theorem daysInMonth_bounds (y m : Int) (h1 : 1 ≤ m) (h2 : m ≤ 12) :
    28 ≤ daysInMonth y m ∧ daysInMonth y m ≤ 31 := by
  interval_cases m <;>
    simp only [dim1, dim2, dim3, dim4, dim5, dim6, dim7, dim8, dim9, dim10,
      dim11, dim12] <;>
    (try split_ifs) <;> omega

theorem rataDie_affine (y m d k : Int) :
    rataDie ⟨y, m, d + k⟩ = rataDie ⟨y, m, d⟩ + k := by
  dsimp only [rataDie]
  split_ifs <;> omega

set_option maxHeartbeats 2000000 in
theorem rataDie_roll_fwd (y m dd : Int) (h1 : 1 ≤ m) (h2 : m ≤ 11) :
    rataDie ⟨y, m + 1, dd - daysInMonth y m⟩ = rataDie ⟨y, m, dd⟩ := by
  interval_cases m
  · rw [dim1]; dsimp only [rataDie]; norm_num; all_goals omega
  · rw [dim2]
    cases hL : isLeap y
    · rw [isLeap_false_iff] at hL; dsimp only [rataDie]; norm_num; all_goals omega
    · rw [isLeap_iff] at hL; dsimp only [rataDie]; norm_num; all_goals omega
  · rw [dim3]; dsimp only [rataDie]; norm_num
  · rw [dim4]; dsimp only [rataDie]; norm_num; all_goals omega
  · rw [dim5]; dsimp only [rataDie]; norm_num; all_goals omega
  · rw [dim6]; dsimp only [rataDie]; norm_num; all_goals omega
  · rw [dim7]; dsimp only [rataDie]; norm_num; all_goals omega
  · rw [dim8]; dsimp only [rataDie]; norm_num; all_goals omega
  · rw [dim9]; dsimp only [rataDie]; norm_num; all_goals omega
  · rw [dim10]; dsimp only [rataDie]; norm_num; all_goals omega
  · rw [dim11]; dsimp only [rataDie]; norm_num; all_goals omega

theorem rataDie_roll_year (y dd : Int) :
    rataDie ⟨y + 1, 1, dd - daysInMonth y 12⟩ = rataDie ⟨y, 12, dd⟩ := by
  rw [dim12]
  dsimp only [rataDie]
  norm_num
  omega

theorem valid_mk (y m d : Int) :
    (Civil.mk y m d).valid ↔ (1 ≤ m ∧ m ≤ 12 ∧ 1 ≤ d ∧ d ≤ daysInMonth y m) :=
  Iff.rfl

theorem civ_eq_iff (a b : Civil) : a = b ↔ (a.y = b.y ∧ a.m = b.m ∧ a.d = b.d) := by
  constructor
  · rintro rfl; exact ⟨rfl, rfl, rfl⟩
  · rcases a with ⟨a1, a2, a3⟩
    rcases b with ⟨b1, b2, b3⟩
    rintro ⟨h1, h2, h3⟩
    dsimp only at h1 h2 h3
    rw [h1, h2, h3]

theorem normFwd_spec (f : Nat) : ∀ (y m dd : Int), 1 ≤ m → m ≤ 12 → 1 ≤ dd →
    dd ≤ 28 * f + 28 →
    (normFwd f y m dd).valid ∧ rataDie (normFwd f y m dd) = rataDie ⟨y, m, dd⟩ := by
  induction f with
  | zero =>
    intro y m dd h1 h2 h3 h4
    have hb := daysInMonth_bounds y m h1 h2
    have he : normFwd 0 y m dd = ⟨y, m, dd⟩ := rfl
    rw [he]
    refine ⟨?_, rfl⟩
    rw [valid_mk]
    omega
  | succ f ih =>
    intro y m dd h1 h2 h3 h4
    have hb := daysInMonth_bounds y m h1 h2
    simp only [normFwd]
    split_ifs with hgt hm
    · subst hm
      have hb12 := daysInMonth_bounds y 12 (by omega) (by omega)
      obtain ⟨hv, hr⟩ := ih (y + 1) 1 (dd - daysInMonth y 12)
        (by omega) (by omega) (by omega) (by omega)
      exact ⟨hv, by rw [hr, rataDie_roll_year]⟩
    · obtain ⟨hv, hr⟩ := ih y (m + 1) (dd - daysInMonth y m)
        (by omega) (by omega) (by omega) (by omega)
      exact ⟨hv, by rw [hr, rataDie_roll_fwd y m dd h1 (by omega)]⟩
    · refine ⟨?_, rfl⟩
      rw [valid_mk]
      omega

theorem normBwd_spec (f : Nat) : ∀ (y m dd : Int), 1 ≤ m → m ≤ 12 →
    dd ≤ daysInMonth y m → 1 - dd ≤ 28 * f →
    (normBwd f y m dd).valid ∧ rataDie (normBwd f y m dd) = rataDie ⟨y, m, dd⟩ := by
  induction f with
  | zero =>
    intro y m dd h1 h2 h3 h4
    have he : normBwd 0 y m dd = ⟨y, m, dd⟩ := rfl
    rw [he]
    refine ⟨?_, rfl⟩
    rw [valid_mk]
    omega
  | succ f ih =>
    intro y m dd h1 h2 h3 h4
    simp only [normBwd]
    split_ifs with hlt hm
    · subst hm
      have hb12 := daysInMonth_bounds (y - 1) 12 (by omega) (by omega)
      obtain ⟨hv, hr⟩ := ih (y - 1) 12 (dd + daysInMonth (y - 1) 12)
        (by omega) (by omega) (by omega) (by omega)
      refine ⟨hv, ?_⟩
      rw [hr]
      have hstep := rataDie_roll_year (y - 1) (dd + daysInMonth (y - 1) 12)
      rw [show y - 1 + 1 = y by ring] at hstep
      rw [show dd + daysInMonth (y - 1) 12 - daysInMonth (y - 1) 12 = dd by ring] at hstep
      exact hstep.symm
    · have hb := daysInMonth_bounds y (m - 1) (by omega) (by omega)
      obtain ⟨hv, hr⟩ := ih y (m - 1) (dd + daysInMonth y (m - 1))
        (by omega) (by omega) (by omega) (by omega)
      refine ⟨hv, ?_⟩
      rw [hr]
      have hstep := rataDie_roll_fwd y (m - 1) (dd + daysInMonth y (m - 1))
        (by omega) (by omega)
      rw [show m - 1 + 1 = m by ring] at hstep
      rw [show dd + daysInMonth y (m - 1) - daysInMonth y (m - 1) = dd by ring] at hstep
      exact hstep.symm
    · refine ⟨?_, rfl⟩
      rw [valid_mk]
      omega

theorem addDays_spec (c : Civil) (n : Int) (h : c.valid) :
    (addDays c n).valid ∧ rataDie (addDays c n) = rataDie c + n := by
  obtain ⟨h1, h2, h3, h4⟩ := h
  have hb := daysInMonth_bounds c.y c.m h1 h2
  have haff : rataDie ⟨c.y, c.m, c.d + n⟩ = rataDie c + n := by
    have := rataDie_affine c.y c.m c.d n
    simpa using this
  unfold addDays
  by_cases hdd : c.d + n < 1
  · simp only [if_pos hdd]
    obtain ⟨hv, hr⟩ := normBwd_spec ((1 - (c.d + n)).toNat + 1) c.y c.m (c.d + n)
      h1 h2 (by omega) (by omega)
    exact ⟨hv, by rw [hr, haff]⟩
  · simp only [if_neg hdd]
    obtain ⟨hv, hr⟩ := normFwd_spec (c.d + n).toNat c.y c.m (c.d + n)
      h1 h2 (by omega) (by omega)
    exact ⟨hv, by rw [hr, haff]⟩

theorem addDays_valid (c : Civil) (n : Int) (h : c.valid) : (addDays c n).valid :=
  (addDays_spec c n h).1

theorem rataDie_addDays (c : Civil) (n : Int) (h : c.valid) :
    rataDie (addDays c n) = rataDie c + n :=
  (addDays_spec c n h).2

/-- Explicit successor of a valid civil date. -/
def succCivil (c : Civil) : Civil :=
  if c.d < daysInMonth c.y c.m then ⟨c.y, c.m, c.d + 1⟩
  else if c.m < 12 then ⟨c.y, c.m + 1, 1⟩
  else ⟨c.y + 1, 1, 1⟩

theorem succCivil_valid (c : Civil) (h : c.valid) : (succCivil c).valid := by
  obtain ⟨h1, h2, h3, h4⟩ := h
  unfold succCivil
  split_ifs with hd hm
  · rw [valid_mk]; omega
  · have hb := daysInMonth_bounds c.y (c.m + 1) (by omega) (by omega)
    rw [valid_mk]; omega
  · have hb := daysInMonth_bounds (c.y + 1) 1 (by omega) (by omega)
    rw [valid_mk]; omega

theorem rataDie_succCivil (c : Civil) (h : c.valid) :
    rataDie (succCivil c) = rataDie c + 1 := by
  obtain ⟨h1, h2, h3, h4⟩ := h
  have haff : rataDie ⟨c.y, c.m, c.d + 1⟩ = rataDie c + 1 := by
    have := rataDie_affine c.y c.m c.d 1
    simpa using this
  unfold succCivil
  split_ifs with hd hm
  · exact haff
  · -- c.d = daysInMonth c.y c.m, month rolls forward
    have heq : c.d = daysInMonth c.y c.m := by omega
    have hroll := rataDie_roll_fwd c.y c.m (c.d + 1) h1 (by omega)
    have harg : c.d + 1 - daysInMonth c.y c.m = 1 := by omega
    rw [harg] at hroll
    rw [hroll, haff]
  · -- December 31 rolls to the next year
    have hm12 : c.m = 12 := by omega
    have h31 : daysInMonth c.y 12 = 31 := dim12 c.y
    have hd31 : c.d = 31 := by
      rw [hm12] at hd h4
      rw [h31] at hd h4
      omega
    have hroll := rataDie_roll_year c.y (c.d + 1)
    have harg : c.d + 1 - daysInMonth c.y 12 = 1 := by rw [h31]; omega
    rw [harg] at hroll
    rw [hroll]
    have hcc : (⟨c.y, 12, c.d + 1⟩ : Civil) = ⟨c.y, c.m, c.d + 1⟩ := by
      rw [civ_eq_iff]
      exact ⟨rfl, hm12.symm, rfl⟩
    rw [hcc, haff]

theorem civLt_trans {a b c : Civil} (h1 : civLt a b) (h2 : civLt b c) : civLt a c := by
  unfold civLt at *
  omega

theorem civLt_irrefl (a : Civil) : ¬ civLt a a := by
  unfold civLt; omega

theorem civLt_total (a b : Civil) : civLt a b ∨ a = b ∨ civLt b a := by
  rw [civ_eq_iff]
  unfold civLt
  omega

theorem civLt_succCivil (c : Civil) (h : c.valid) : civLt c (succCivil c) := by
  obtain ⟨h1, h2, h3, h4⟩ := h
  unfold succCivil civLt
  split_ifs <;> dsimp only <;> omega

/-- No valid civil date lies strictly between a valid date and its successor. -/
theorem succCivil_le_of_lt (c x : Civil) (hc : c.valid) (hx : x.valid)
    (h : civLt c x) : civLe (succCivil c) x := by
  obtain ⟨h1, h2, h3, h4⟩ := hc
  obtain ⟨g1, g2, g3, g4⟩ := hx
  have hbc := daysInMonth_bounds c.y c.m h1 h2
  have hdim : (x.y ≠ c.y) ∨ (x.m ≠ c.m) ∨
      daysInMonth x.y x.m = daysInMonth c.y c.m := by
    by_cases e1 : x.y = c.y
    · by_cases e2 : x.m = c.m
      · exact Or.inr (Or.inr (by rw [e1, e2]))
      · exact Or.inr (Or.inl e2)
    · exact Or.inl e1
  unfold civLe
  rw [civ_eq_iff]
  unfold civLt at h ⊢
  unfold succCivil
  split_ifs with hd hm <;> dsimp only <;> omega

/-- Measure for the strict-monotonicity induction. -/
def civMeasure (c x : Civil) : Int :=
  (x.y - c.y) * 400 + (x.m - c.m) * 32 + (x.d - c.d)

theorem civMeasure_pos (c x : Civil) (hc : c.valid) (hx : x.valid)
    (h : civLt c x) : 1 ≤ civMeasure c x := by
  obtain ⟨h1, h2, h3, h4⟩ := hc
  obtain ⟨g1, g2, g3, g4⟩ := hx
  have hbc := daysInMonth_bounds c.y c.m h1 h2
  have hbx := daysInMonth_bounds x.y x.m g1 g2
  unfold civLt at h
  unfold civMeasure
  omega

theorem civMeasure_succ_lt (c x : Civil) (hc : c.valid) :
    civMeasure (succCivil c) x < civMeasure c x := by
  obtain ⟨h1, h2, h3, h4⟩ := hc
  have hbc := daysInMonth_bounds c.y c.m h1 h2
  unfold civMeasure succCivil
  split_ifs <;> dsimp only <;> omega

theorem rataDie_mono_aux (k : Nat) : ∀ (c x : Civil), c.valid → x.valid →
    civLt c x → civMeasure c x ≤ (k : Int) → rataDie c < rataDie x := by
  induction k with
  | zero =>
    intro c x hc hx h hk
    have := civMeasure_pos c x hc hx h
    omega
  | succ k ih =>
    intro c x hc hx h hk
    have hs := succCivil_le_of_lt c x hc hx h
    have hrs := rataDie_succCivil c hc
    cases hs with
    | inr heq => rw [← heq]; omega
    | inl hlt =>
      have hvs := succCivil_valid c hc
      have hm := civMeasure_succ_lt c x hc
      have := ih (succCivil c) x hvs hx hlt (by omega)
      omega

theorem rataDie_lt_of_civLt {c x : Civil} (hc : c.valid) (hx : x.valid)
    (h : civLt c x) : rataDie c < rataDie x := by
  have hpos := civMeasure_pos c x hc hx h
  refine rataDie_mono_aux (civMeasure c x).toNat c x hc hx h ?_
  omega

theorem civLt_iff_rataDie {c x : Civil} (hc : c.valid) (hx : x.valid) :
    civLt c x ↔ rataDie c < rataDie x := by
  constructor
  · exact rataDie_lt_of_civLt hc hx
  · intro h
    rcases civLt_total c x with h1 | h1 | h1
    · exact h1
    · subst h1; omega
    · have := rataDie_lt_of_civLt hx hc h1; omega

theorem civLe_iff_rataDie {c x : Civil} (hc : c.valid) (hx : x.valid) :
    civLe c x ↔ rataDie c ≤ rataDie x := by
  unfold civLe
  constructor
  · rintro (h | rfl)
    · exact le_of_lt (rataDie_lt_of_civLt hc hx h)
    · exact le_refl _
  · intro h
    rcases civLt_total c x with h1 | h1 | h1
    · exact Or.inl h1
    · exact Or.inr h1
    · have := rataDie_lt_of_civLt hx hc h1; omega

theorem rataDie_inj {c x : Civil} (hc : c.valid) (hx : x.valid)
    (h : rataDie c = rataDie x) : c = x := by
  rcases civLt_total c x with h1 | h1 | h1
  · have := rataDie_lt_of_civLt hc hx h1; omega
  · exact h1
  · have := rataDie_lt_of_civLt hx hc h1; omega

theorem addDays_addDays (c : Civil) (a b : Int) (h : c.valid) :
    addDays (addDays c a) b = addDays c (a + b) := by
  have h1 := addDays_spec c a h
  have h2 := addDays_spec (addDays c a) b h1.1
  have h3 := addDays_spec c (a + b) h
  exact rataDie_inj h2.1 h3.1 (by omega)

/-! ## ISO-string order: for dates with 4-digit years, the string order of
`toISODate` output agrees with chronological order -/

theorem decChar_lt_iff (a b : Nat) (ha : a ≤ 9) (hb : b ≤ 9) :
    (decDigitChar a < decDigitChar b ↔ a < b) := by
  interval_cases a <;> interval_cases b <;> decide

theorem decChar_eq_iff (a b : Nat) (ha : a ≤ 9) (hb : b ≤ 9) :
    (decDigitChar a = decDigitChar b ↔ a = b) := by
  interval_cases a <;> interval_cases b <;> decide

theorem natReprAux_fuel (n : Nat) : ∀ f g, n < f → n < g →
    natReprAux f n = natReprAux g n := by
  induction n using Nat.strong_induction_on with
  | _ n ih =>
    intro f g hf hg
    match f, g with
    | f + 1, g + 1 =>
      simp only [natReprAux]
      by_cases h10 : n < 10
      · simp [h10]
      · simp only [if_neg h10]
        have hdiv : n / 10 < n := Nat.div_lt_self (by omega) (by omega)
        rw [ih (n / 10) hdiv f (n / 10 + 1) (by omega) (by omega),
          ih (n / 10) hdiv g (n / 10 + 1) (by omega) (by omega)]

theorem jsNatRepr_lt10 (n : Nat) (h : n < 10) :
    jsNatRepr n = String.mk [decDigitChar n] := by
  unfold jsNatRepr
  simp only [natReprAux, if_pos h]

theorem jsNatRepr_step (n : Nat) (h : 10 ≤ n) :
    jsNatRepr n = jsNatRepr (n / 10) ++ String.mk [decDigitChar (n % 10)] := by
  unfold jsNatRepr
  conv_lhs => simp only [natReprAux]
  rw [if_neg (by omega)]
  have hdiv : n / 10 < n := Nat.div_lt_self (by omega) (by omega)
  rw [natReprAux_fuel (n / 10) n (n / 10 + 1) (by omega) (by omega)]

theorem jsNat_data_two (n : Nat) (h1 : 10 ≤ n) (h2 : n ≤ 99) :
    (jsNatRepr n).data = [decDigitChar (n / 10), decDigitChar (n % 10)] := by
  rw [jsNatRepr_step n h1, jsNatRepr_lt10 (n / 10) (by omega)]
  rfl

theorem pad2_data (n : Nat) (h : n ≤ 99) :
    (padStart2 (jsNatRepr n)).data = [decDigitChar (n / 10), decDigitChar (n % 10)] := by
  by_cases h10 : n < 10
  · rw [jsNatRepr_lt10 n h10]
    have e1 : n / 10 = 0 := by omega
    have e2 : n % 10 = n := by omega
    rw [e1, e2]
    rfl
  · have hd := jsNat_data_two n (by omega) h
    have hlen : (jsNatRepr n).length = 2 := by
      show (jsNatRepr n).data.length = 2
      rw [hd]
      rfl
    unfold padStart2
    rw [if_pos (by omega)]
    exact hd

theorem jsNat_data_four (n : Nat) (h1 : 1000 ≤ n) (h2 : n ≤ 9999) :
    (jsNatRepr n).data = [decDigitChar (n / 1000), decDigitChar (n / 100 % 10),
      decDigitChar (n / 10 % 10), decDigitChar (n % 10)] := by
  have e1 : n / 10 / 10 = n / 100 := by omega
  have e2 : n / 100 / 10 = n / 1000 := by omega
  rw [jsNatRepr_step n (by omega)]
  rw [jsNatRepr_step (n / 10) (by omega), e1]
  rw [jsNatRepr_step (n / 100) (by omega), e2]
  rw [jsNatRepr_lt10 (n / 1000) (by omega)]
  rfl

theorem jsIntRepr_nonneg (i : Int) (h : 0 ≤ i) : jsIntRepr i = jsNatRepr i.toNat := by
  unfold jsIntRepr
  rw [if_neg (by omega)]

/-- Big-endian digit list of a 4-digit number. -/
def yDigits (n : Nat) : List Char :=
  [decDigitChar (n / 1000), decDigitChar (n / 100 % 10),
    decDigitChar (n / 10 % 10), decDigitChar (n % 10)]

/-- Big-endian digit list of a 2-padded number below 100. -/
def mdDigits (n : Nat) : List Char := [decDigitChar (n / 10), decDigitChar (n % 10)]

/-- The `List Char` content of an ISO date string with a 4-digit year. -/
theorem toISODate_data (c : Civil) (hc : c.valid) (hy1 : 1000 ≤ c.y)
    (hy2 : c.y ≤ 9999) :
    (toISODate c).data =
      yDigits c.y.toNat ++ '-' :: (mdDigits c.m.toNat ++ '-' :: mdDigits c.d.toNat) := by
  obtain ⟨h1, h2, h3, h4⟩ := hc
  have hb := daysInMonth_bounds c.y c.m h1 h2
  unfold toISODate
  rw [jsIntRepr_nonneg c.y (by omega), jsIntRepr_nonneg c.m (by omega),
    jsIntRepr_nonneg c.d (by omega)]
  have hy := jsNat_data_four c.y.toNat (by omega) (by omega)
  have hm := pad2_data c.m.toNat (by omega)
  have hd := pad2_data c.d.toNat (by omega)
  show ((((jsNatRepr c.y.toNat ++ "-") ++ padStart2 (jsNatRepr c.m.toNat)) ++ "-") ++
      padStart2 (jsNatRepr c.d.toNat)).data = _
  have happ : ∀ (s t : String), (s ++ t).data = s.data ++ t.data := by
    intro s t
    rcases s with ⟨sd⟩
    rcases t with ⟨td⟩
    rfl
  rw [happ, happ, happ, happ, hy, hm, hd]
  unfold yDigits mdDigits
  rfl

theorem toISODate_length (c : Civil) (hc : c.valid) (hy1 : 1000 ≤ c.y)
    (hy2 : c.y ≤ 9999) : (toISODate c).data.length = 10 := by
  rw [toISODate_data c hc hy1 hy2]
  rfl

theorem strLt_iff_lex (s t : String) :
    s < t ↔ List.Lex (· < ·) s.data t.data := by
  rw [String.lt_iff_toList_lt]
  exact Iff.rfl

theorem lex_cons_iff {a b : Char} {as bs : List Char} :
    List.Lex (· < ·) (a :: as) (b :: bs) ↔
      a < b ∨ (a = b ∧ List.Lex (· < ·) as bs) := by
  constructor
  · intro h
    cases h with
    | rel h => exact Or.inl h
    | cons h => exact Or.inr ⟨rfl, h⟩
  · rintro (h | ⟨rfl, h⟩)
    · exact List.Lex.rel h
    · exact List.Lex.cons h

theorem lex_append_iff : ∀ (xs xs' ys ys' : List Char),
    xs.length = xs'.length →
    (List.Lex (· < ·) (xs ++ ys) (xs' ++ ys') ↔
      (List.Lex (· < ·) xs xs' ∨ (xs = xs' ∧ List.Lex (· < ·) ys ys'))) := by
  intro xs
  induction xs with
  | nil =>
    intro xs' ys ys' hlen
    have : xs' = [] := by
      cases xs' with
      | nil => rfl
      | cons a t => simp at hlen
    subst this
    simp only [List.nil_append]
    constructor
    · intro h
      exact Or.inr ⟨trivial, h⟩
    · rintro (h | ⟨-, h⟩)
      · cases h
      · exact h
  | cons a t ih =>
    intro xs' ys ys' hlen
    cases xs' with
    | nil => simp at hlen
    | cons b t' =>
      simp only [List.cons_append, lex_cons_iff]
      rw [ih t' ys ys' (by simpa using hlen)]
      constructor
      · rintro (h | ⟨rfl, h | ⟨rfl, h⟩⟩)
        · exact Or.inl (Or.inl h)
        · exact Or.inl (Or.inr ⟨rfl, h⟩)
        · exact Or.inr ⟨rfl, h⟩
      · rintro ((h | ⟨rfl, h⟩) | ⟨heq, h⟩)
        · exact Or.inl h
        · exact Or.inr ⟨rfl, Or.inl h⟩
        · rw [List.cons.injEq] at heq
          obtain ⟨rfl, rfl⟩ := heq
          exact Or.inr ⟨rfl, Or.inr ⟨rfl, h⟩⟩

theorem digits2_lex_iff (a b : Nat) (ha : a ≤ 99) (hb : b ≤ 99) :
    (List.Lex (· < ·) (mdDigits a) (mdDigits b) ↔ a < b) := by
  unfold mdDigits
  rw [lex_cons_iff, List.Lex.singleton_iff]
  rw [decChar_lt_iff _ _ (by omega) (by omega),
    decChar_eq_iff _ _ (by omega) (by omega),
    decChar_lt_iff _ _ (by omega) (by omega)]
  omega

theorem digits2_eq_iff (a b : Nat) (ha : a ≤ 99) (hb : b ≤ 99) :
    (mdDigits a = mdDigits b ↔ a = b) := by
  unfold mdDigits
  simp only [List.cons.injEq, and_true]
  rw [decChar_eq_iff _ _ (by omega) (by omega),
    decChar_eq_iff _ _ (by omega) (by omega)]
  omega

theorem digits4_lex_iff (a b : Nat) (ha : a ≤ 9999) (hb : b ≤ 9999) :
    (List.Lex (· < ·) (yDigits a) (yDigits b) ↔ a < b) := by
  unfold yDigits
  rw [lex_cons_iff, lex_cons_iff, lex_cons_iff, List.Lex.singleton_iff]
  rw [decChar_lt_iff _ _ (by omega) (by omega),
    decChar_eq_iff _ _ (by omega) (by omega),
    decChar_lt_iff _ _ (by omega) (by omega),
    decChar_eq_iff _ _ (by omega) (by omega),
    decChar_lt_iff _ _ (by omega) (by omega),
    decChar_eq_iff _ _ (by omega) (by omega),
    decChar_lt_iff _ _ (by omega) (by omega)]
  omega

theorem digits4_eq_iff (a b : Nat) (ha : a ≤ 9999) (hb : b ≤ 9999) :
    (yDigits a = yDigits b ↔ a = b) := by
  unfold yDigits
  simp only [List.cons.injEq, and_true]
  rw [decChar_eq_iff _ _ (by omega) (by omega),
    decChar_eq_iff _ _ (by omega) (by omega),
    decChar_eq_iff _ _ (by omega) (by omega),
    decChar_eq_iff _ _ (by omega) (by omega)]
  omega

/-- In-range validity for the ISO transfer lemmas. -/
def ValidR (c : Civil) : Prop := c.valid ∧ 1000 ≤ c.y ∧ c.y ≤ 9999

instance (c : Civil) : Decidable (ValidR c) := by unfold ValidR; infer_instance

set_option maxHeartbeats 1000000 in
theorem toISODate_lt_iff (c x : Civil) (hc : ValidR c) (hx : ValidR x) :
    (toISODate c < toISODate x ↔ civLt c x) := by
  obtain ⟨hcv, hcy1, hcy2⟩ := hc
  obtain ⟨hxv, hxy1, hxy2⟩ := hx
  obtain ⟨c1, c2, c3, c4⟩ := hcv
  obtain ⟨x1, x2, x3, x4⟩ := hxv
  have hbc := daysInMonth_bounds c.y c.m c1 c2
  have hbx := daysInMonth_bounds x.y x.m x1 x2
  rw [strLt_iff_lex]
  rw [toISODate_data c ⟨c1, c2, c3, c4⟩ hcy1 hcy2,
    toISODate_data x ⟨x1, x2, x3, x4⟩ hxy1 hxy2]
  have hsame : ∀ (ch : Char) (A B : List Char),
      (List.Lex (· < ·) (ch :: A) (ch :: B) ↔ List.Lex (· < ·) A B) := by
    intro ch A B
    rw [lex_cons_iff]
    constructor
    · rintro (h | ⟨-, h⟩)
      · exact absurd h (lt_irrefl _)
      · exact h
    · exact fun h => Or.inr ⟨rfl, h⟩
  rw [lex_append_iff (yDigits c.y.toNat) (yDigits x.y.toNat)
    ('-' :: (mdDigits c.m.toNat ++ '-' :: mdDigits c.d.toNat))
    ('-' :: (mdDigits x.m.toNat ++ '-' :: mdDigits x.d.toNat)) (by rfl)]
  rw [hsame '-' (mdDigits c.m.toNat ++ '-' :: mdDigits c.d.toNat)
    (mdDigits x.m.toNat ++ '-' :: mdDigits x.d.toNat)]
  rw [lex_append_iff (mdDigits c.m.toNat) (mdDigits x.m.toNat)
    ('-' :: mdDigits c.d.toNat) ('-' :: mdDigits x.d.toNat) (by rfl)]
  rw [hsame '-' (mdDigits c.d.toNat) (mdDigits x.d.toNat)]
  rw [digits4_lex_iff c.y.toNat x.y.toNat (by omega) (by omega),
    digits4_eq_iff c.y.toNat x.y.toNat (by omega) (by omega),
    digits2_lex_iff c.m.toNat x.m.toNat (by omega) (by omega),
    digits2_eq_iff c.m.toNat x.m.toNat (by omega) (by omega),
    digits2_lex_iff c.d.toNat x.d.toNat (by omega) (by omega)]
  unfold civLt
  omega

theorem toISODate_le_iff (c x : Civil) (hc : ValidR c) (hx : ValidR x) :
    (toISODate c ≤ toISODate x ↔ rataDie c ≤ rataDie x) := by
  have h1 : toISODate c ≤ toISODate x ↔ ¬ toISODate x < toISODate c := by
    constructor
    · exact fun h => not_lt_of_le h
    · exact fun h => le_of_not_lt h
  rw [h1, toISODate_lt_iff x c hx hc, civLt_iff_rataDie hx.1 hc.1]
  omega

theorem toISODate_lt_iff_rataDie (c x : Civil) (hc : ValidR c) (hx : ValidR x) :
    (toISODate c < toISODate x ↔ rataDie c < rataDie x) := by
  rw [toISODate_lt_iff c x hc hx, civLt_iff_rataDie hc.1 hx.1]

theorem toISODate_inj (c x : Civil) (hc : ValidR c) (hx : ValidR x)
    (h : toISODate c = toISODate x) : c = x := by
  rcases civLt_total c x with h1 | h1 | h1
  · rw [← toISODate_lt_iff c x hc hx] at h1
    rw [h] at h1
    exact absurd h1 (lt_irrefl _)
  · exact h1
  · rw [← toISODate_lt_iff x c hx hc] at h1
    rw [h] at h1
    exact absurd h1 (lt_irrefl _)

/-- Rata-Die day numbers of `1000-01-01` and `9999-12-31`: dates between them
have 4-digit years. -/
def rdLo : Int := rataDie ⟨1000, 1, 1⟩

def rdHi : Int := rataDie ⟨9999, 12, 31⟩

theorem validR_of_rataDie_range (c : Civil) (hv : c.valid)
    (hlo : rdLo ≤ rataDie c) (hhi : rataDie c ≤ rdHi) : ValidR c := by
  refine ⟨hv, ?_, ?_⟩
  · by_contra hlt
    have hone : (⟨1000, 1, 1⟩ : Civil).valid := by decide
    have h : civLt c ⟨1000, 1, 1⟩ := by unfold civLt; left; dsimp only; omega
    have := rataDie_lt_of_civLt hv hone h
    unfold rdLo at hlo
    omega
  · by_contra hlt
    have hone : (⟨9999, 12, 31⟩ : Civil).valid := by decide
    have h : civLt (⟨9999, 12, 31⟩ : Civil) c := by unfold civLt; left; dsimp only; omega
    have := rataDie_lt_of_civLt hone hv h
    unfold rdHi at hhi
    omega

/-! ## Cadence-loop characterization -/

theorem addDays_zero (c : Civil) (h : c.valid) : addDays c 0 = c := by
  have h0 := addDays_spec c 0 h
  exact rataDie_inj h0.1 h (by omega)

theorem civLe_refl (c : Civil) : civLe c c := Or.inr rfl

theorem civLe_total_of_not_lt {a b : Civil} (h : ¬ civLt a b) : civLe b a := by
  rcases civLt_total a b with h1 | h1 | h1
  · exact absurd h1 h
  · exact Or.inr h1.symm
  · exact Or.inl h1

/-- Iterating `addDays` by multiples of the step. -/
theorem addDays_zero_mul (c : Civil) (hc : c.valid) (every : Int) :
    addDays c (((0 : Nat) : Int) * every) = c := by
  have h : ((0 : Nat) : Int) * every = 0 := by push_cast; ring
  rw [h, addDays_zero c hc]

theorem addDays_one_mul (c : Civil) (every : Int) :
    addDays c (((1 : Nat) : Int) * every) = addDays c every := by
  congr 1
  push_cast
  ring

theorem addDays_mul_succ (c : Civil) (hc : c.valid) (every : Int) (k : Nat) :
    addDays (addDays c every) ((k : Int) * every) =
      addDays c (((k + 1 : Nat) : Int) * every) := by
  rw [addDays_addDays c every _ hc]
  congr 1
  push_cast
  ring

/-- Specification of the advance loop: the result is the `j`-th multiple of
`every` past the initial cursor, all earlier multiples are before the range
start, and the loop stopped either at/after the range start or past `last`. -/
theorem occAdvance_spec (every : Int) (he : 1 ≤ every) (rs last : Civil)
    (hrs : rs.valid) :
    ∀ (fuel : Nat) (c : Civil), c.valid →
      (rataDie rs - rataDie c).toNat < fuel →
      ∃ j : Nat, occAdvance fuel c rs last every = addDays c ((j : Int) * every) ∧
        (∀ i : Nat, i < j → civLt (addDays c ((i : Int) * every)) rs) ∧
        (civLe rs (occAdvance fuel c rs last every) ∨
          civLt last (occAdvance fuel c rs last every)) := by
  intro fuel
  induction fuel with
  | zero => intro c _ hb; omega
  | succ f ih =>
    intro c hc hb
    simp only [occAdvance]
    split_ifs with hlt hbreak
    · -- stepped past `last`: stop with cursor = addDays c every
      refine ⟨1, (addDays_one_mul c every).symm, ?_, Or.inr hbreak⟩
      intro i hi
      have hi0 : i = 0 := by omega
      subst hi0
      rw [addDays_zero_mul c hc]
      exact hlt
    · -- still before the range start: recurse
      have hc' : (addDays c every).valid := addDays_valid c every hc
      have hrd : rataDie (addDays c every) = rataDie c + every :=
        rataDie_addDays c every hc
      have hlt_rd : rataDie c < rataDie rs := rataDie_lt_of_civLt hc hrs hlt
      obtain ⟨j, hj1, hj2, hj3⟩ := ih (addDays c every) hc' (by omega)
      refine ⟨j + 1, ?_, ?_, hj3⟩
      · rw [hj1, addDays_mul_succ c hc every j]
      · intro i hi
        cases i with
        | zero =>
          rw [addDays_zero_mul c hc]
          exact hlt
        | succ i' =>
          have hstep := hj2 i' (by omega)
          rwa [addDays_mul_succ c hc every i'] at hstep
    · -- cursor already at/after the range start
      exact ⟨0, (addDays_zero_mul c hc every).symm, by omega,
        Or.inl (civLe_total_of_not_lt hlt)⟩

theorem occEmit_nil_of_gt (fuel : Nat) (c last : Civil) (every : Int)
    (sS sE : String) (h : ¬ civLe c last) :
    occEmit fuel c last every sS sE = [] := by
  cases fuel with
  | zero => rfl
  | succ f => simp only [occEmit, if_neg h]

/-- Membership characterization of the emission loop, under the hypotheses
that make its string comparisons agree with chronological order. -/
theorem occEmit_mem (every : Int) (he : 1 ≤ every) (last S E : Civil)
    (hlv : last.valid) (hS : ValidR S) (hE : ValidR E)
    (hhi : rataDie last ≤ rdHi) :
    ∀ (fuel : Nat) (c : Civil), c.valid → rdLo ≤ rataDie c →
      (rataDie last - rataDie c).toNat < fuel → ∀ o : Civil,
      (o ∈ occEmit fuel c last every (toISODate S) (toISODate E) ↔
        ∃ k : Nat, o = addDays c ((k : Int) * every) ∧
          rataDie o ≤ rataDie last ∧
          rataDie S ≤ rataDie o ∧ rataDie o ≤ rataDie E) := by
  intro fuel
  induction fuel with
  | zero => intro c _ _ hb; omega
  | succ f ih =>
    intro c hc hlo hb o
    have hrdk : ∀ k : Nat, rataDie (addDays c ((k : Int) * every)) =
        rataDie c + (k : Int) * every :=
      fun k => rataDie_addDays c ((k : Int) * every) hc
    simp only [occEmit]
    by_cases hcl : civLe c last
    · rw [if_pos hcl]
      have hcll : rataDie c ≤ rataDie last := (civLe_iff_rataDie hc hlv).mp hcl
      have hcr : ValidR c := validR_of_rataDie_range c hc (by omega) (by omega)
      have hkeep : (toISODate S ≤ toISODate c ∧ toISODate c ≤ toISODate E) ↔
          (rataDie S ≤ rataDie c ∧ rataDie c ≤ rataDie E) := by
        rw [toISODate_le_iff S c hS hcr, toISODate_le_iff c E hcr hE]
      -- the case `k = 0` of the right-hand side is the `keep` singleton
      have hzero_mem : ∀ (rest : List Civil),
          (o ∈ (if toISODate S ≤ toISODate c ∧ toISODate c ≤ toISODate E
              then [c] else []) ++ rest ↔
            (o = c ∧ rataDie S ≤ rataDie c ∧ rataDie c ≤ rataDie E) ∨ o ∈ rest) := by
        intro rest
        split_ifs with hk
        · rw [List.cons_append, List.nil_append, List.mem_cons]
          rw [hkeep] at hk
          constructor
          · rintro (rfl | hm)
            · exact Or.inl ⟨rfl, hk⟩
            · exact Or.inr hm
          · rintro (⟨rfl, -⟩ | hm)
            · exact Or.inl rfl
            · exact Or.inr hm
        · rw [List.nil_append]
          rw [hkeep] at hk
          constructor
          · exact fun hm => Or.inr hm
          · rintro (⟨rfl, hk2⟩ | hm)
            · exact absurd hk2 hk
            · exact hm
      by_cases hbrk : toISODate E < toISODate c
      · -- break: current date already past `safeEnd`
        have hEc : rataDie E < rataDie c :=
          (toISODate_lt_iff_rataDie E c hE hcr).mp hbrk
        rw [if_pos hbrk]
        rw [hzero_mem []]
        constructor
        · rintro (⟨ho, h2, h3⟩ | hm)
          · exfalso; omega
          · simp at hm
        · rintro ⟨k, rfl, h1, h2, h3⟩
          have := hrdk k
          have hk0 : (0 : Int) ≤ (k : Int) * every := by positivity
          omega
      · rw [if_neg hbrk]
        have hEc : rataDie c ≤ rataDie E := by
          have hn := (toISODate_lt_iff_rataDie E c hE hcr).not
          rw [not_lt, not_lt] at hn
          exact hn.mp hbrk
        have hc' : (addDays c every).valid := addDays_valid c every hc
        have hrd' : rataDie (addDays c every) = rataDie c + every :=
          rataDie_addDays c every hc
        rw [hzero_mem _]
        have hrest : ∀ x : Civil,
            (x ∈ occEmit f (addDays c every) last every (toISODate S) (toISODate E) ↔
              ∃ k : Nat, x = addDays c (((k + 1 : Nat) : Int) * every) ∧
                rataDie x ≤ rataDie last ∧
                rataDie S ≤ rataDie x ∧ rataDie x ≤ rataDie E) := by
          intro x
          by_cases hcl' : civLe (addDays c every) last
          · have hcll' : rataDie (addDays c every) ≤ rataDie last :=
              (civLe_iff_rataDie hc' hlv).mp hcl'
            rw [ih (addDays c every) hc' (by omega) (by omega) x]
            constructor
            · rintro ⟨k, hx, h1, h2, h3⟩
              exact ⟨k, by rw [hx, ← addDays_mul_succ c hc every k], h1, h2, h3⟩
            · rintro ⟨k, hx, h1, h2, h3⟩
              exact ⟨k, by rw [hx, addDays_mul_succ c hc every k], h1, h2, h3⟩
          · rw [occEmit_nil_of_gt f (addDays c every) last every _ _ hcl']
            have hlast' : rataDie last < rataDie (addDays c every) := by
              rcases civLe_total_of_not_lt (fun hlt => hcl' (Or.inl hlt)) with hlt | heq
              · exact rataDie_lt_of_civLt hlv hc' hlt
              · exact absurd (Or.inr heq.symm) hcl'
            constructor
            · intro hm
              simp at hm
            · rintro ⟨k, hx, h1, h2, h3⟩
              exfalso
              have hrdx : rataDie x = rataDie c + ((k + 1 : Nat) : Int) * every := by
                rw [hx]
                exact hrdk (k + 1)
              have hk0 : (0 : Int) ≤ (k : Int) * every := by positivity
              push_cast at hrdx
              nlinarith [hk0, hrdx, hlast', hrd', h1]
        rw [hrest o]
        constructor
        · rintro (⟨ho, h2, h3⟩ | ⟨k, hx, h1, h2, h3⟩)
          · refine ⟨0, ?_, ?_, ?_, ?_⟩
            · rw [addDays_zero_mul c hc every]; exact ho
            · rw [ho]; exact hcll
            · rw [ho]; exact h2
            · rw [ho]; exact h3
          · exact ⟨k + 1, hx, h1, h2, h3⟩
        · rintro ⟨k, hx, h1, h2, h3⟩
          cases k with
          | zero =>
            rw [addDays_zero_mul c hc every] at hx
            rw [hx] at h2 h3
            exact Or.inl ⟨hx, h2, h3⟩
          | succ k' =>
            exact Or.inr ⟨k', hx, h1, h2, h3⟩
    · rw [if_neg hcl]
      have hlast : rataDie last < rataDie c := by
        rcases civLe_total_of_not_lt (fun hlt => hcl (Or.inl hlt)) with hlt | heq
        · exact rataDie_lt_of_civLt hlv hc hlt
        · exact absurd (Or.inr heq.symm) hcl
      constructor
      · intro hmem
        simp at hmem
      · rintro ⟨k, rfl, h1, h2, h3⟩
        have := hrdk k
        have hk0 : (0 : Int) ≤ (k : Int) * every := by positivity
        omega

theorem rataDie_range_of_validR (c : Civil) (h : ValidR c) :
    rdLo ≤ rataDie c ∧ rataDie c ≤ rdHi := by
  obtain ⟨hv, hy1, hy2⟩ := h
  obtain ⟨h1, h2, h3, h4⟩ := id hv
  have hb := daysInMonth_bounds c.y c.m h1 h2
  constructor
  · have hlo : civLe (⟨1000, 1, 1⟩ : Civil) c := by
      unfold civLe civLt
      rw [civ_eq_iff]
      dsimp only
      omega
    have := (civLe_iff_rataDie (by decide) hv).mp hlo
    exact this
  · have hhi : civLe c (⟨9999, 12, 31⟩ : Civil) := by
      unfold civLe civLt
      rw [civ_eq_iff]
      dsimp only
      omega
    have := (civLe_iff_rataDie hv (by decide)).mp hhi
    exact this

/-- Every date emitted by the emission loop passes the `inWindow` check. -/
theorem occEmit_mem_inWindow : ∀ (fuel : Nat) (c last : Civil) (every : Int)
    (sS sE : String) (o : Civil), o ∈ occEmit fuel c last every sS sE →
    sS ≤ toISODate o ∧ toISODate o ≤ sE := by
  intro fuel
  induction fuel with
  | zero => intro c last every sS sE o hm; simp [occEmit] at hm
  | succ f ih =>
    intro c last every sS sE o hm
    simp only [occEmit] at hm
    by_cases h1 : civLe c last
    · rw [if_pos h1] at hm
      rw [List.mem_append] at hm
      rcases hm with hm | hm
      · by_cases hk : sS ≤ toISODate c ∧ toISODate c ≤ sE
        · rw [if_pos hk] at hm
          rw [List.mem_singleton] at hm
          rw [hm]
          exact hk
        · rw [if_neg hk] at hm
          simp at hm
      · by_cases hbrk : sE < toISODate c
        · rw [if_pos hbrk] at hm
          simp at hm
        · rw [if_neg hbrk] at hm
          exact ih _ _ _ _ _ _ hm
    · rw [if_neg h1] at hm
      simp at hm

/-- Emitted dates are chronologically strictly increasing. -/
theorem occEmit_pairwise (every : Int) (he : 1 ≤ every) (last S E : Civil)
    (hlv : last.valid) (hS : ValidR S) (hE : ValidR E)
    (hhi : rataDie last ≤ rdHi) :
    ∀ (fuel : Nat) (c : Civil), c.valid → rdLo ≤ rataDie c →
      (rataDie last - rataDie c).toNat < fuel →
      List.Pairwise (fun a b => rataDie a < rataDie b)
        (occEmit fuel c last every (toISODate S) (toISODate E)) := by
  intro fuel
  induction fuel with
  | zero => intro c _ _ hb; omega
  | succ f ih =>
    intro c hc hlo hb
    simp only [occEmit]
    by_cases h1 : civLe c last
    · rw [if_pos h1]
      have hcll : rataDie c ≤ rataDie last := (civLe_iff_rataDie hc hlv).mp h1
      by_cases hbrk : toISODate E < toISODate c
      · rw [if_pos hbrk]
        simp only [List.append_nil]
        by_cases hk : toISODate S ≤ toISODate c ∧ toISODate c ≤ toISODate E
        · rw [if_pos hk]; exact List.pairwise_singleton _ _
        · rw [if_neg hk]; exact List.Pairwise.nil
      · rw [if_neg hbrk]
        have hc' : (addDays c every).valid := addDays_valid c every hc
        have hrd' : rataDie (addDays c every) = rataDie c + every :=
          rataDie_addDays c every hc
        by_cases hcl' : civLe (addDays c every) last
        · have hcll' : rataDie (addDays c every) ≤ rataDie last :=
            (civLe_iff_rataDie hc' hlv).mp hcl'
          have hrest := ih (addDays c every) hc' (by omega) (by omega)
          rw [List.pairwise_append]
          refine ⟨?_, hrest, ?_⟩
          · by_cases hk : toISODate S ≤ toISODate c ∧ toISODate c ≤ toISODate E
            · rw [if_pos hk]; exact List.pairwise_singleton _ _
            · rw [if_neg hk]; exact List.Pairwise.nil
          · intro a ha b hb2
            have haeq : a = c := by
              by_cases hk : toISODate S ≤ toISODate c ∧ toISODate c ≤ toISODate E
              · rw [if_pos hk] at ha; exact List.mem_singleton.mp ha
              · rw [if_neg hk] at ha; simp at ha
            rw [haeq]
            have hbm := (occEmit_mem every he last S E hlv hS hE hhi f
              (addDays c every) hc' (by omega) (by omega) b).mp hb2
            obtain ⟨k, hbk, -, -, -⟩ := hbm
            have hbrd : rataDie b = rataDie (addDays c every) + (k : Int) * every := by
              rw [hbk]
              exact rataDie_addDays (addDays c every) _ hc'
            have hk0 : (0 : Int) ≤ (k : Int) * every := by positivity
            omega
        · rw [occEmit_nil_of_gt f (addDays c every) last every _ _ hcl']
          simp only [List.append_nil]
          by_cases hk : toISODate S ≤ toISODate c ∧ toISODate c ≤ toISODate E
          · rw [if_pos hk]; exact List.pairwise_singleton _ _
          · rw [if_neg hk]; exact List.Pairwise.nil
    · rw [if_neg h1]
      exact List.Pairwise.nil

/-- Full membership characterization of one cadence rule's emitted dates. -/
theorem cadenceDates_mem (planting : Civil) (hp : planting.valid)
    (startDay endDay every : Int) (he : 1 ≤ every)
    (sS sE : String) (S E : Civil)
    (hpS : parseLooseDate sS = some S) (hSiso : toISODate S = sS)
    (hEiso : toISODate E = sE) (hS : ValidR S) (hE : ValidR E)
    (hflo : rdLo ≤ rataDie planting + startDay)
    (hlhi : rataDie planting + endDay ≤ rdHi) (o : Civil) :
    o ∈ cadenceDates planting startDay endDay every sS sE ↔
      ∃ k : Nat, o = addDays (addDays planting startDay) ((k : Int) * every) ∧
        rataDie S ≤ rataDie o ∧
        rataDie o ≤ rataDie planting + endDay ∧ rataDie o ≤ rataDie E := by
  have hfv : (addDays planting startDay).valid := addDays_valid planting startDay hp
  have hfrd : rataDie (addDays planting startDay) = rataDie planting + startDay :=
    rataDie_addDays planting startDay hp
  have hlv : (addDays planting endDay).valid := addDays_valid planting endDay hp
  have hlrd : rataDie (addDays planting endDay) = rataDie planting + endDay :=
    rataDie_addDays planting endDay hp
  have hSrange := rataDie_range_of_validR S hS
  unfold cadenceDates
  rw [hpS]
  simp only [Option.getD_some]
  obtain ⟨j, hj1, hj2, hj3⟩ := occAdvance_spec every he S (addDays planting endDay)
    hS.1 ((rataDie S - rataDie (addDays planting startDay)).toNat + 2)
    (addDays planting startDay) hfv (by omega)
  rw [hj1]
  have hcv : (addDays (addDays planting startDay) ((j : Int) * every)).valid :=
    addDays_valid _ _ hfv
  have hcrd : rataDie (addDays (addDays planting startDay) ((j : Int) * every)) =
      rataDie planting + startDay + (j : Int) * every := by
    rw [rataDie_addDays _ _ hfv, hfrd]
  have hj0 : (0 : Int) ≤ (j : Int) * every := by positivity
  rw [← hSiso, ← hEiso]
  rw [occEmit_mem every he (addDays planting endDay) S E hlv hS hE (by omega)
    ((rataDie (addDays planting endDay) -
      rataDie (addDays (addDays planting startDay) ((j : Int) * every))).toNat + 2)
    (addDays (addDays planting startDay) ((j : Int) * every)) hcv (by omega)
    (by omega) o]
  have hcomb : ∀ kp : Nat,
      addDays (addDays (addDays planting startDay) ((j : Int) * every))
        ((kp : Int) * every) =
      addDays (addDays planting startDay) (((j + kp : Nat) : Int) * every) := by
    intro kp
    rw [addDays_addDays _ _ _ hfv]
    congr 1
    push_cast
    ring
  constructor
  · rintro ⟨kp, ho, h1, h2, h3⟩
    rw [hcomb kp] at ho
    exact ⟨j + kp, ho, h2, by rw [← hlrd]; exact h1, h3⟩
  · rintro ⟨k, ho, h2, h1, h3⟩
    have hord : rataDie o = rataDie planting + startDay + (k : Int) * every := by
      rw [ho, rataDie_addDays _ _ hfv, hfrd]
    have hkj : j ≤ k := by
      by_contra hkj
      have hjlt := hj2 k (by omega)
      have hklt : rataDie (addDays (addDays planting startDay) ((k : Int) * every)) <
          rataDie S :=
        rataDie_lt_of_civLt (addDays_valid _ _ hfv) hS.1 hjlt
      rw [← ho] at hklt
      omega
    refine ⟨k - j, ?_, by rw [hlrd]; exact h1, h2, h3⟩
    rw [hcomb (k - j)]
    have : j + (k - j) = k := by omega
    rw [this]
    exact ho

/-- Emitted cadence dates in chronological order (used to show each date is
emitted at most once). -/
theorem cadenceDates_pairwise (planting : Civil) (hp : planting.valid)
    (startDay endDay every : Int) (he : 1 ≤ every)
    (sS sE : String) (S E : Civil)
    (hpS : parseLooseDate sS = some S) (hSiso : toISODate S = sS)
    (hEiso : toISODate E = sE) (hS : ValidR S) (hE : ValidR E)
    (hflo : rdLo ≤ rataDie planting + startDay)
    (hlhi : rataDie planting + endDay ≤ rdHi) :
    List.Pairwise (fun a b => rataDie a < rataDie b)
      (cadenceDates planting startDay endDay every sS sE) := by
  have hfv : (addDays planting startDay).valid := addDays_valid planting startDay hp
  have hfrd : rataDie (addDays planting startDay) = rataDie planting + startDay :=
    rataDie_addDays planting startDay hp
  have hlv : (addDays planting endDay).valid := addDays_valid planting endDay hp
  have hlrd : rataDie (addDays planting endDay) = rataDie planting + endDay :=
    rataDie_addDays planting endDay hp
  unfold cadenceDates
  rw [hpS]
  simp only [Option.getD_some]
  obtain ⟨j, hj1, hj2, hj3⟩ := occAdvance_spec every he S (addDays planting endDay)
    hS.1 ((rataDie S - rataDie (addDays planting startDay)).toNat + 2)
    (addDays planting startDay) hfv (by omega)
  rw [hj1]
  have hcv : (addDays (addDays planting startDay) ((j : Int) * every)).valid :=
    addDays_valid _ _ hfv
  have hcrd : rataDie (addDays (addDays planting startDay) ((j : Int) * every)) =
      rataDie planting + startDay + (j : Int) * every := by
    rw [rataDie_addDays _ _ hfv, hfrd]
  have hj0 : (0 : Int) ≤ (j : Int) * every := by positivity
  rw [← hSiso, ← hEiso]
  exact occEmit_pairwise every he (addDays planting endDay) S E hlv hS hE (by omega)
    _ _ hcv (by omega) (by omega)

/-! ## Deduplication lemmas (`jsObjectValues`) -/

/-- Association lookup (first pair with the given key). -/
def assocFind {α : Type} (l : List (String × α)) (k : String) : Option α :=
  (l.find? (fun p => p.1 = k)).map (·.2)

theorem assocFind_upsert {α : Type} (acc : List (String × α)) (k : String)
    (v : α) (kp : String) :
    assocFind (upsertAssoc acc k v) kp =
      if kp = k then some v else assocFind acc kp := by
  induction acc with
  | nil =>
    unfold upsertAssoc assocFind
    by_cases h : kp = k
    · subst h
      simp [List.find?]
    · simp [List.find?, Ne.symm h, h]
  | cons p t ih =>
    obtain ⟨k1, v1⟩ := p
    unfold upsertAssoc
    by_cases h1 : k1 = k
    · subst h1
      rw [if_pos rfl]
      by_cases h2 : kp = k1
      · subst h2
        unfold assocFind
        simp [List.find?]
      · unfold assocFind
        simp only [List.find?]
        have hb : (decide (k1 = kp)) = false := by
          simp [Ne.symm h2]
        rw [if_neg h2]
        simp [hb]
    · rw [if_neg h1]
      by_cases h2 : kp = k1
      · subst h2
        unfold assocFind
        simp only [List.find?]
        have hne : ¬ kp = k := fun h => h1 (by rw [← h])
        rw [if_neg hne]
        simp
      · unfold assocFind at ih ⊢
        simp only [List.find?]
        have hb : (decide (k1 = kp)) = false := by
          simp [Ne.symm h2]
        simp only [hb]
        exact ih

/-- Invariant of the fold's accumulator: pairs carry their value's key, and
keys are unique. -/
def AssocInv {α : Type} (key : α → String) (m : List (String × α)) : Prop :=
  (∀ p ∈ m, p.1 = key p.2) ∧ (m.map (·.1)).Nodup

theorem mem_fst_upsert {α : Type} (acc : List (String × α)) (k : String) (v : α)
    (x : String) :
    x ∈ (upsertAssoc acc k v).map (·.1) ↔ x = k ∨ x ∈ acc.map (·.1) := by
  induction acc with
  | nil => simp [upsertAssoc]
  | cons p t ih =>
    obtain ⟨k1, v1⟩ := p
    unfold upsertAssoc
    by_cases h1 : k1 = k
    · subst h1
      rw [if_pos rfl]
      simp only [List.map_cons, List.mem_cons]
      constructor
      · rintro (rfl | h)
        · exact Or.inl rfl
        · exact Or.inr (Or.inr h)
      · rintro (rfl | (rfl | h))
        · exact Or.inl rfl
        · exact Or.inl rfl
        · exact Or.inr h
    · rw [if_neg h1]
      simp only [List.map_cons, List.mem_cons, ih]
      tauto

theorem assocInv_upsert {α : Type} (key : α → String) (acc : List (String × α))
    (v : α) (hinv : AssocInv key acc) :
    AssocInv key (upsertAssoc acc (key v) v) := by
  induction acc with
  | nil =>
    constructor
    · intro p hp
      simp only [upsertAssoc, List.mem_singleton] at hp
      rw [hp]
    · simp [upsertAssoc]
  | cons p t ih =>
    obtain ⟨k1, v1⟩ := p
    obtain ⟨hkeys, hnodup⟩ := hinv
    simp only [List.map_cons, List.nodup_cons] at hnodup
    have hinvt : AssocInv key t := ⟨fun q hq => hkeys q (List.mem_cons_of_mem _ hq),
      hnodup.2⟩
    unfold upsertAssoc
    by_cases h1 : k1 = key v
    · rw [if_pos h1]
      constructor
      · intro q hq
        rcases List.mem_cons.mp hq with rfl | hq
        · exact h1
        · exact hkeys q (List.mem_cons_of_mem _ hq)
      · simp only [List.map_cons, List.nodup_cons]
        exact hnodup
    · rw [if_neg h1]
      obtain ⟨ht1, ht2⟩ := ih hinvt
      constructor
      · intro q hq
        rcases List.mem_cons.mp hq with rfl | hq
        · exact hkeys ⟨k1, v1⟩ (List.mem_cons_self _ _)
        · exact ht1 q hq
      · simp only [List.map_cons, List.nodup_cons]
        refine ⟨?_, ht2⟩
        intro hmem
        rcases (mem_fst_upsert t (key v) v k1).mp hmem with rfl | hmem
        · exact h1 rfl
        · exact hnodup.1 hmem

theorem assocFind_some_mem {α : Type} (m : List (String × α)) (k : String)
    (x : α) (h : assocFind m k = some x) :
    k ∈ m.map (·.1) ∧ x ∈ m.map (·.2) := by
  unfold assocFind at h
  cases hf : m.find? (fun p => p.1 = k) with
  | none => rw [hf] at h; exact absurd h (by simp)
  | some p =>
    rw [hf] at h
    have hx : p.2 = x := by simpa using h
    have hmem := List.mem_of_find?_eq_some hf
    have hk : p.1 = k := by simpa using List.find?_some hf
    constructor
    · exact hk ▸ List.mem_map.mpr ⟨p, hmem, rfl⟩
    · exact hx ▸ List.mem_map.mpr ⟨p, hmem, rfl⟩

theorem assocFind_mem_values {α : Type} (key : α → String)
    (m : List (String × α)) (hinv : AssocInv key m) (x : α) :
    x ∈ m.map (·.2) ↔ assocFind m (key x) = some x := by
  induction m with
  | nil => simp [assocFind]
  | cons p t ih =>
    obtain ⟨k1, v1⟩ := p
    obtain ⟨hkeys, hnodup⟩ := hinv
    simp only [List.map_cons, List.nodup_cons] at hnodup
    have hinvt : AssocInv key t := ⟨fun q hq => hkeys q (List.mem_cons_of_mem _ hq),
      hnodup.2⟩
    have hk1 : k1 = key v1 := hkeys ⟨k1, v1⟩ (List.mem_cons_self _ _)
    simp only [List.map_cons, List.mem_cons]
    constructor
    · rintro (rfl | hx)
      · unfold assocFind
        simp only [List.find?]
        rw [← hk1]
        simp
      · have hfind := (ih hinvt).mp hx
        have hne : ¬ (k1 = key x) := by
          intro heq
          exact hnodup.1 (heq ▸ (assocFind_some_mem t (key x) x hfind).1)
        unfold assocFind at hfind ⊢
        simp only [List.find?]
        have hb : (decide (k1 = key x)) = false := by simp [hne]
        simp only [hb]
        exact hfind
    · intro hfind
      unfold assocFind at hfind
      simp only [List.find?] at hfind
      by_cases hne : k1 = key x
      · have hb : (decide (k1 = key x)) = true := by simp [hne]
        simp only [hb] at hfind
        have : v1 = x := by simpa using hfind
        exact Or.inl this.symm
      · have hb : (decide (k1 = key x)) = false := by simp [hne]
        simp only [hb] at hfind
        exact Or.inr ((ih hinvt).mpr hfind)

theorem assocInv_fold {α : Type} (key : α → String) (l : List α)
    (acc : List (String × α)) (hinv : AssocInv key acc) :
    AssocInv key (l.foldl (fun a x => upsertAssoc a (key x) x) acc) := by
  induction l generalizing acc with
  | nil => exact hinv
  | cons t l ih =>
    simp only [List.foldl_cons]
    exact ih _ (assocInv_upsert key acc t hinv)

theorem assocInv_nil {α : Type} (key : α → String) : AssocInv key ([] : List (String × α)) :=
  ⟨fun _ h => absurd h (List.not_mem_nil _), List.nodup_nil⟩

theorem assocFind_fold {α : Type} (key : α → String) (l : List α)
    (acc : List (String × α)) (κ : String) :
    assocFind (l.foldl (fun a x => upsertAssoc a (key x) x) acc) κ =
      ((l.filter (fun t => key t = κ)).getLast?).or (assocFind acc κ) := by
  induction l generalizing acc with
  | nil => simp
  | cons t l ih =>
    simp only [List.foldl_cons]
    rw [ih]
    by_cases hk : key t = κ
    · have hfil : (t :: l).filter (fun s => decide (key s = κ)) =
        t :: l.filter (fun s => decide (key s = κ)) := by
        simp [List.filter, hk]
      rw [hfil]
      rw [assocFind_upsert]
      rw [if_pos hk.symm]
      cases hlast : (l.filter (fun s => decide (key s = κ))).getLast? with
      | none =>
        have hnil : l.filter (fun s => decide (key s = κ)) = [] := by
          cases hf : l.filter (fun s => decide (key s = κ)) with
          | nil => rfl
          | cons a b =>
            rw [hf] at hlast
            exact absurd hlast (by simp [List.getLast?])
        rw [hnil]
        simp [List.getLast?]
      | some a =>
        have hne : l.filter (fun s => decide (key s = κ)) ≠ [] := by
          intro hf
          rw [hf] at hlast
          exact absurd hlast (by simp [List.getLast?])
        have : (t :: l.filter (fun s => decide (key s = κ))).getLast? =
            (l.filter (fun s => decide (key s = κ))).getLast? := by
          cases hf : l.filter (fun s => decide (key s = κ)) with
          | nil => exact absurd hf hne
          | cons a b => simp [List.getLast?_cons_cons]
        rw [this, hlast]
        simp
    · have hfil : (t :: l).filter (fun s => decide (key s = κ)) =
        l.filter (fun s => decide (key s = κ)) := by
        simp [List.filter, hk]
      rw [hfil]
      rw [assocFind_upsert]
      rw [if_neg (fun h => hk h.symm)]

theorem mem_jsObjectValues {α : Type} (key : α → String) (l : List α) (x : α) :
    x ∈ jsObjectValues key l ↔
      (l.filter (fun t => key t = key x)).getLast? = some x := by
  unfold jsObjectValues
  rw [assocFind_mem_values key _ (assocInv_fold key l [] (assocInv_nil key)) x]
  rw [assocFind_fold]
  have : assocFind ([] : List (String × α)) (key x) = none := rfl
  rw [this, Option.or_none]

theorem getLast?_mem {α : Type} (l : List α) (x : α) (h : l.getLast? = some x) :
    x ∈ l := by
  induction l with
  | nil => exact absurd h (by simp [List.getLast?])
  | cons a t ih =>
    cases t with
    | nil =>
      have : a = x := by simpa [List.getLast?] using h
      exact this ▸ List.mem_cons_self _ _
    | cons b u =>
      rw [List.getLast?_cons_cons] at h
      exact List.mem_cons_of_mem _ (ih h)

theorem jsObjectValues_subset {α : Type} (key : α → String) (l : List α) (x : α)
    (h : x ∈ jsObjectValues key l) : x ∈ l := by
  rw [mem_jsObjectValues] at h
  exact List.mem_of_mem_filter (getLast?_mem _ _ h)

/-! ## Sorting lemmas -/

theorem cmpStr_lt_iff (a b : String) : cmpStr a b = .lt ↔ a < b := by
  unfold cmpStr
  by_cases h1 : a < b
  · simp [h1]
  · rw [if_neg h1]
    by_cases h2 : b < a
    · simp [h2, h1]
    · simp [h2, h1]

theorem cmpStr_gt_iff (a b : String) : cmpStr a b = .gt ↔ b < a := by
  unfold cmpStr
  by_cases h1 : a < b
  · rw [if_pos h1]
    simp [lt_asymm h1]
  · rw [if_neg h1]
    by_cases h2 : b < a
    · simp [h2]
    · simp [h2]

theorem cmpStr_eq_iff (a b : String) : cmpStr a b = .eq ↔ a = b := by
  unfold cmpStr
  by_cases h1 : a < b
  · rw [if_pos h1]
    simp only [reduceCtorEq, false_iff]
    exact ne_of_lt h1
  · rw [if_neg h1]
    by_cases h2 : b < a
    · rw [if_pos h2]
      simp only [reduceCtorEq, false_iff]
      exact (ne_of_lt h2).symm
    · simp only [if_neg h2, true_iff]
      exact le_antisymm (not_lt.mp h2) (not_lt.mp h1)

theorem then_assoc (x y z : Ordering) : (x.then y).then z = x.then (y.then z) := by
  cases x <;> rfl

theorem then_eqO (x : Ordering) : x.then .eq = x := by
  cases x <;> rfl

/-- Lexicographic comparison by a list of string-valued keys.  `jsSortCompare`
and the other comparators of the program are instances of this shape. -/
def cmpKeys {α : Type} (ks : List (α → String)) (a b : α) : Ordering :=
  match ks with
  | [] => .eq
  | k :: t => (cmpStr (k a) (k b)).then (cmpKeys t a b)

theorem cmpStr_swap (a b : String) : cmpStr a b = (cmpStr b a).swap := by
  rcases lt_trichotomy a b with h | h | h
  · rw [(cmpStr_lt_iff a b).mpr h, (cmpStr_gt_iff b a).mpr h]
    rfl
  · rw [(cmpStr_eq_iff a b).mpr h, (cmpStr_eq_iff b a).mpr h.symm]
    rfl
  · rw [(cmpStr_gt_iff a b).mpr h, (cmpStr_lt_iff b a).mpr h]
    rfl

theorem cmpKeys_swap {α : Type} (ks : List (α → String)) (a b : α) :
    cmpKeys ks a b = (cmpKeys ks b a).swap := by
  induction ks with
  | nil => rfl
  | cons k t ih =>
    show (cmpStr (k a) (k b)).then (cmpKeys t a b) =
      ((cmpStr (k b) (k a)).then (cmpKeys t b a)).swap
    rw [cmpStr_swap (k a) (k b), ih]
    cases cmpStr (k b) (k a) <;> rfl

theorem cmpKeys_trans {α : Type} (ks : List (α → String)) (a b c : α)
    (hab : cmpKeys ks a b ≠ .gt) (hbc : cmpKeys ks b c ≠ .gt) :
    cmpKeys ks a c ≠ .gt := by
  induction ks with
  | nil => simp [cmpKeys]
  | cons k t ih =>
    have hab' : (cmpStr (k a) (k b)).then (cmpKeys t a b) ≠ .gt := hab
    have hbc' : (cmpStr (k b) (k c)).then (cmpKeys t b c) ≠ .gt := hbc
    show (cmpStr (k a) (k c)).then (cmpKeys t a c) ≠ .gt
    cases h1 : cmpStr (k a) (k b) with
    | gt => rw [h1] at hab'; exact absurd rfl hab'
    | lt =>
      have hlt1 : k a < k b := (cmpStr_lt_iff _ _).mp h1
      cases h2 : cmpStr (k b) (k c) with
      | gt => rw [h2] at hbc'; exact absurd rfl hbc'
      | lt =>
        have hlt2 : k b < k c := (cmpStr_lt_iff _ _).mp h2
        rw [(cmpStr_lt_iff (k a) (k c)).mpr (lt_trans hlt1 hlt2)]
        simp [Ordering.then]
      | eq =>
        have heq2 : k b = k c := (cmpStr_eq_iff _ _).mp h2
        rw [(cmpStr_lt_iff (k a) (k c)).mpr (heq2 ▸ hlt1)]
        simp [Ordering.then]
    | eq =>
      have heq1 : k a = k b := (cmpStr_eq_iff _ _).mp h1
      rw [h1] at hab'
      have hab2 : cmpKeys t a b ≠ .gt := by
        simpa [Ordering.then] using hab'
      cases h2 : cmpStr (k b) (k c) with
      | gt => rw [h2] at hbc'; exact absurd rfl hbc'
      | lt =>
        have hlt2 : k b < k c := (cmpStr_lt_iff _ _).mp h2
        rw [(cmpStr_lt_iff (k a) (k c)).mpr (heq1 ▸ hlt2)]
        simp [Ordering.then]
      | eq =>
        have heq2 : k b = k c := (cmpStr_eq_iff _ _).mp h2
        rw [h2] at hbc'
        have hbc2 : cmpKeys t b c ≠ .gt := by
          simpa [Ordering.then] using hbc'
        rw [(cmpStr_eq_iff (k a) (k c)).mpr (heq1.trans heq2)]
        simpa [Ordering.then] using ih hab2 hbc2

/-- The four string keys, in lexicographic priority order, that
`jsSortCompare` compares by. -/
def instSortKeys : List (FarmingTaskInstance → String) :=
  [fun t => jsToLower t.dueDateISO, fun t => swapCaseStr t.dueDateISO,
   fun t => jsToLower (jsOrStr2 t.title ""), fun t => swapCaseStr (jsOrStr2 t.title "")]

theorem jsSortCompare_keys (a b : FarmingTaskInstance) :
    jsSortCompare a b = cmpKeys instSortKeys a b := by
  show (localeCompareModel a.dueDateISO b.dueDateISO).then
      (localeCompareModel (jsOrStr2 a.title "") (jsOrStr2 b.title "")) = _
  unfold localeCompareModel
  show _ = (cmpStr (jsToLower a.dueDateISO) (jsToLower b.dueDateISO)).then
    ((cmpStr (swapCaseStr a.dueDateISO) (swapCaseStr b.dueDateISO)).then
      ((cmpStr (jsToLower (jsOrStr2 a.title "")) (jsToLower (jsOrStr2 b.title ""))).then
        ((cmpStr (swapCaseStr (jsOrStr2 a.title "")) (swapCaseStr (jsOrStr2 b.title ""))).then .eq)))
  rw [then_eqO, then_assoc]

instance : IsTotal FarmingTaskInstance instSortLE := by
  constructor
  intro a b
  unfold instSortLE
  rw [jsSortCompare_keys, jsSortCompare_keys, cmpKeys_swap instSortKeys b a]
  cases h : cmpKeys instSortKeys a b <;> simp [h, Ordering.swap]

instance : IsTrans FarmingTaskInstance instSortLE := by
  constructor
  intro a b c hab hbc
  unfold instSortLE at hab hbc ⊢
  rw [jsSortCompare_keys] at hab hbc ⊢
  exact cmpKeys_trans instSortKeys a b c hab hbc

theorem sortInstances_mem (l : List FarmingTaskInstance) (x : FarmingTaskInstance) :
    x ∈ sortInstances l ↔ x ∈ l :=
  List.mem_insertionSort instSortLE

theorem sortInstances_sorted (l : List FarmingTaskInstance) :
    List.Sorted instSortLE (sortInstances l) :=
  List.sorted_insertionSort instSortLE l

/-- The two string keys compared by `taskDueLE`. -/
def taskDueKeys : List (FarmingOneOffTask → String) :=
  [fun t => jsToLower t.dueDateISO, fun t => swapCaseStr t.dueDateISO]

theorem taskDue_keys (a b : FarmingOneOffTask) :
    localeCompareModel a.dueDateISO b.dueDateISO = cmpKeys taskDueKeys a b := by
  unfold localeCompareModel
  show _ = (cmpStr (jsToLower a.dueDateISO) (jsToLower b.dueDateISO)).then
    ((cmpStr (swapCaseStr a.dueDateISO) (swapCaseStr b.dueDateISO)).then .eq)
  rw [then_eqO]

instance : IsTotal FarmingOneOffTask taskDueLE := by
  constructor
  intro a b
  unfold taskDueLE
  rw [taskDue_keys, taskDue_keys, cmpKeys_swap taskDueKeys b a]
  cases h : cmpKeys taskDueKeys a b <;> simp [h, Ordering.swap]

instance : IsTrans FarmingOneOffTask taskDueLE := by
  constructor
  intro a b c hab hbc
  unfold taskDueLE at hab hbc ⊢
  rw [taskDue_keys] at hab hbc ⊢
  exact cmpKeys_trans taskDueKeys a b c hab hbc

/-! ## Shared helpers for the claim theorems -/

theorem flatMap_filter_of_nil {α β : Type} (p : α → Bool) (f : α → List β)
    (l : List α) (h : ∀ x ∈ l, p x = false → f x = []) :
    (l.filter p).flatMap f = l.flatMap f := by
  induction l with
  | nil => rfl
  | cons a t ih =>
    have ht : ∀ x ∈ t, p x = false → f x = [] :=
      fun x hx => h x (List.mem_cons_of_mem _ hx)
    cases hp : p a with
    | true => simp [List.filter_cons, hp, ih ht]
    | false => simp [List.filter_cons, hp, h a (List.mem_cons_self a t) hp, ih ht]

instance {ε α : Type} [DecidableEq ε] [DecidableEq α] : DecidableEq (Except ε α) :=
  fun a b =>
    match a, b with
    | .ok x, .ok y =>
      if h : x = y then isTrue (by rw [h]) else isFalse (by simp [h])
    | .error x, .error y =>
      if h : x = y then isTrue (by rw [h]) else isFalse (by simp [h])
    | .ok _, .error _ => isFalse (by simp)
    | .error _, .ok _ => isFalse (by simp)

theorem clampISO_bounds (iso minISO maxISO : String) (h : minISO ≤ maxISO) :
    minISO ≤ clampISO iso minISO maxISO ∧ clampISO iso minISO maxISO ≤ maxISO := by
  unfold clampISO
  split_ifs with h1 h2
  · exact ⟨le_refl _, h⟩
  · exact ⟨h, le_refl _⟩
  · exact ⟨not_lt.mp h1, not_lt.mp h2⟩

theorem cadenceDates_in_window (planting : Civil) (sd ed ev : Int)
    (sS sE : String) (o : Civil) (h : o ∈ cadenceDates planting sd ed ev sS sE) :
    sS ≤ toISODate o ∧ toISODate o ≤ sE := by
  unfold cadenceDates at h
  exact occEmit_mem_inWindow _ _ _ _ _ _ _ h

theorem emittedResults_due_in_window (plan : StoredFarmingPlan)
    (startISO endISO : String) (language : Option String)
    (inst : FarmingTaskInstance)
    (h : inst ∈ emittedResults plan startISO endISO language) :
    clampISO startISO plan.plantingDateISO plan.expectedHarvestDateISO ≤
        inst.dueDateISO ∧
      inst.dueDateISO ≤
        clampISO endISO plan.plantingDateISO plan.expectedHarvestDateISO := by
  unfold emittedResults nonWateringEmissionsOf wateringEmissionsOf at h
  cases hp : parseLooseDate plan.plantingDateISO with
  | none => rw [hp] at h; simp at h
  | some planting =>
    rw [hp] at h
    dsimp only at h
    by_cases hlt : clampISO endISO plan.plantingDateISO plan.expectedHarvestDateISO <
        clampISO startISO plan.plantingDateISO plan.expectedHarvestDateISO
    · rw [if_pos hlt, if_pos hlt] at h
      simp at h
    · rw [if_neg hlt, if_neg hlt] at h
      rcases List.mem_append.mp h with h1 | hw
      · rcases List.mem_append.mp h1 with ho | hr
        · obtain ⟨t, ht, rfl⟩ := List.mem_map.mp ho
          rw [List.mem_filter] at ht
          exact of_decide_eq_true ht.2
        · obtain ⟨r, _, hin⟩ := List.mem_flatMap.mp hr
          obtain ⟨o, ho, rfl⟩ := List.mem_map.mp hin
          exact cadenceDates_in_window planting _ _ _ _ _ o ho
      · obtain ⟨w, _, hin⟩ := List.mem_flatMap.mp hw
        by_cases hs : w.everyDays ≥ 9999
        · rw [if_pos hs] at hin
          simp at hin
        · rw [if_neg hs] at hin
          obtain ⟨o, ho, rfl⟩ := List.mem_map.mp hin
          exact cadenceDates_in_window planting _ _ _ _ _ o ho

/-- Membership in the output of the windowed expander, characterized as the
last-written emission of the member's dedup key. -/
theorem mem_expandInRange (plan : StoredFarmingPlan) (startISO endISO : String)
    (language : Option String) (inst : FarmingTaskInstance) :
    inst ∈ expandInRangeFromRules plan startISO endISO language ↔
      ((emittedResults plan startISO endISO language).filter
        (fun t => instKey t = instKey inst)).getLast? = some inst := by
  unfold expandInRangeFromRules
  rw [sortInstances_mem, mem_jsObjectValues]

theorem getLast?_append_right {α : Type} (l1 l2 : List α) (h : l2 ≠ []) :
    (l1 ++ l2).getLast? = l2.getLast? := by
  induction l1 with
  | nil => rfl
  | cons a t ih =>
    cases hf : t ++ l2 with
    | nil => exact absurd (List.append_eq_nil.mp hf).2 h
    | cons b u =>
      rw [List.cons_append, hf, List.getLast?_cons_cons, ← hf, ih]

/-! ## C6 support: splitting a window into two adjacent windows -/

/-- A string that is a canonical ISO date of the 4-digit-year range: it
parses, and printing the parse yields the string back. -/
def isCanonicalISO (s : String) : Prop :=
  match parseLooseDate s with
  | some c => ValidR c ∧ toISODate c = s
  | none => False

instance (s : String) : Decidable (isCanonicalISO s) := by
  unfold isCanonicalISO
  cases hp : parseLooseDate s with
  | none => exact isFalse (fun h => h)
  | some c => exact inferInstanceAs (Decidable (_ ∧ _))

theorem isCanonicalISO_elim {s : String} (h : isCanonicalISO s) :
    ∃ c : Civil, ValidR c ∧ s = toISODate c := by
  unfold isCanonicalISO at h
  cases hp : parseLooseDate s with
  | none => rw [hp] at h; exact h.elim
  | some c => rw [hp] at h; exact ⟨c, h.1, h.2.symm⟩

theorem clampISO_id (iso minISO maxISO : String) (h1 : minISO ≤ iso)
    (h2 : iso ≤ maxISO) : clampISO iso minISO maxISO = iso := by
  unfold clampISO
  rw [if_neg (not_lt.mpr h1), if_neg (not_lt.mpr h2)]

theorem filter_of_map {α β : Type} (l : List α) (f : α → β) (q : β → Bool) :
    (l.map f).filter q = (l.filter (fun x => q (f x))).map f := by
  induction l with
  | nil => rfl
  | cons a t ih =>
    cases h : q (f a) with
    | true => simp [List.filter_cons, h, ih]
    | false => simp [List.filter_cons, h, ih]

theorem filter_flatMap {α β : Type} (l : List α) (g : α → List β) (q : β → Bool) :
    (l.flatMap g).filter q = l.flatMap (fun r => (g r).filter q) := by
  induction l with
  | nil => rfl
  | cons a t ih => simp [List.flatMap_cons, List.filter_append, ih]

theorem flatMap_congr {α β : Type} (l : List α) (f g : α → List β)
    (h : ∀ x ∈ l, f x = g x) : l.flatMap f = l.flatMap g := by
  induction l with
  | nil => rfl
  | cons a t ih =>
    simp only [List.flatMap_cons]
    rw [h a (List.mem_cons_self _ _),
      ih (fun x hx => h x (List.mem_cons_of_mem _ hx))]

/-- Two dedup keys with the same plan-id prefix and 10-character dates agree
componentwise. -/
theorem key_parts_eq {p d1 t1 d2 t2 : String} (h10a : d1.data.length = 10)
    (h10b : d2.data.length = 10)
    (h : p ++ "|" ++ d1 ++ "|" ++ t1 = p ++ "|" ++ d2 ++ "|" ++ t2) :
    d1 = d2 ∧ t1 = t2 := by
  have hd := congrArg String.data h
  have hbar : ("|" : String).data = ['|'] := rfl
  simp only [String.data_append, hbar, List.append_assoc, List.cons_append,
    List.nil_append] at hd
  have hd2 := List.append_cancel_left hd
  rw [List.cons.injEq] at hd2
  obtain ⟨he1, he2⟩ := List.append_inj hd2.2 (by rw [h10a, h10b])
  rw [List.cons.injEq] at he2
  exact ⟨String.toList_inj.mp he1, String.toList_inj.mp he2.2⟩

/-- On a chronologically strictly increasing list whose members print
injectively against `c`, filtering for `c`'s ISO date keeps exactly `c` (when
present). -/
theorem filter_unique_due (c : Civil) : ∀ (L : List Civil),
    List.Pairwise (fun a b => rataDie a < rataDie b) L →
    (∀ o ∈ L, toISODate o = toISODate c → o = c) →
    L.filter (fun o => decide (toISODate o = toISODate c)) =
      if c ∈ L then [c] else [] := by
  intro L
  induction L with
  | nil => intro _ _; simp
  | cons a t ih =>
    intro hpw hinj
    rw [List.pairwise_cons] at hpw
    by_cases ha : toISODate a = toISODate c
    · have hac : a = c := hinj a (List.mem_cons_self _ _) ha
      subst hac
      rw [if_pos (List.mem_cons_self _ _), List.filter_cons, if_pos (by simp)]
      have hnil : t.filter (fun o => decide (toISODate o = toISODate a)) = [] := by
        rw [List.filter_eq_nil_iff]
        intro o ho
        simp only [decide_eq_true_eq]
        intro heq
        have hoa : o = a := hinj o (List.mem_cons_of_mem _ ho) heq
        have hlt := hpw.1 o ho
        rw [hoa] at hlt
        exact absurd hlt (lt_irrefl _)
      rw [hnil]
    · have hac : a ≠ c := fun hh => ha (by rw [hh])
      rw [List.filter_cons, if_neg (by simp [ha])]
      rw [ih hpw.2 (fun o ho => hinj o (List.mem_cons_of_mem _ ho))]
      by_cases hct : c ∈ t
      · rw [if_pos hct, if_pos (List.mem_cons_of_mem _ hct)]
      · rw [if_neg hct, if_neg ?_]
        rw [List.mem_cons]
        rintro (hh | hh)
        · exact hac hh.symm
        · exact hct hh

/-- Cadence membership with the window conditions factored out of the
existential. -/
theorem cadence_mem_win (planting : Civil) (hpl : planting.valid)
    (sd ed ev : Int) (he : 1 ≤ ev)
    (A B : Civil) (hAv : ValidR A) (hBv : ValidR B)
    (hparseA : parseLooseDate (toISODate A) = some A)
    (hflo : rdLo ≤ rataDie planting + sd) (hlhi : rataDie planting + ed ≤ rdHi)
    (c : Civil) :
    c ∈ cadenceDates planting sd ed ev (toISODate A) (toISODate B) ↔
      (∃ k : Nat, c = addDays (addDays planting sd) ((k : Int) * ev) ∧
        rataDie c ≤ rataDie planting + ed) ∧
      rataDie A ≤ rataDie c ∧ rataDie c ≤ rataDie B := by
  rw [cadenceDates_mem planting hpl sd ed ev he (toISODate A) (toISODate B) A B
    hparseA rfl rfl hAv hBv hflo hlhi c]
  constructor
  · rintro ⟨k, hk1, hk2, hk3, hk4⟩
    exact ⟨⟨k, hk1, hk3⟩, hk2, hk4⟩
  · rintro ⟨⟨k, hk1, hk3⟩, hk2, hk4⟩
    exact ⟨k, hk1, hk2, hk3, hk4⟩

/-- Every cadence occurrence is a valid date of the 4-digit-year range. -/
theorem cadence_validR (planting : Civil) (hpl : planting.valid)
    (sd ed ev : Int) (he : 1 ≤ ev)
    (A B : Civil) (hAv : ValidR A) (hBv : ValidR B)
    (hparseA : parseLooseDate (toISODate A) = some A)
    (hflo : rdLo ≤ rataDie planting + sd) (hlhi : rataDie planting + ed ≤ rdHi) :
    ∀ o ∈ cadenceDates planting sd ed ev (toISODate A) (toISODate B), ValidR o := by
  intro o ho
  rw [cadence_mem_win planting hpl sd ed ev he A B hAv hBv hparseA hflo hlhi o] at ho
  obtain ⟨⟨k, hk, h3⟩, h2, _⟩ := ho
  have hv : o.valid := by
    rw [hk]
    exact addDays_valid _ _ (addDays_valid _ _ hpl)
  have hlo := (rataDie_range_of_validR A hAv).1
  exact validR_of_rataDie_range o hv (by omega) (by omega)

/-- When does an emission key hit the key of an instance with canonical due
date `toISODate c`: exactly when the dates and titles agree. -/
theorem key_iff_due (plan : StoredFarmingPlan) (inst : FarmingTaskInstance)
    (c : Civil) (hcv : ValidR c) (hdue : inst.dueDateISO = toISODate c)
    (hpid : inst.planId = plan.id) (d T : String) (o : Civil) (hov : ValidR o)
    (hd : d = toISODate o) :
    (plan.id ++ "|" ++ d ++ "|" ++ T = instKey inst) ↔
      (d = toISODate c ∧ T = inst.title) := by
  have hki : instKey inst = plan.id ++ "|" ++ toISODate c ++ "|" ++ inst.title := by
    unfold instKey
    rw [hpid, hdue]
  rw [hki]
  constructor
  · intro h
    have h10a : d.data.length = 10 := by
      rw [hd]
      exact toISODate_length o hov.1 hov.2.1 hov.2.2
    have h10b : (toISODate c).data.length = 10 :=
      toISODate_length c hcv.1 hcv.2.1 hcv.2.2
    exact key_parts_eq h10a h10b h
  · rintro ⟨hd1, hd2⟩
    rw [hd1, hd2]

/-- Keyed filter over one cadence rule's mapped emissions, explicitly: `[mk
(toISODate c)]` when the rule emits `c` and the titles match, else `[]`. -/
theorem cadence_filter_explicit (plan : StoredFarmingPlan)
    (inst : FarmingTaskInstance) (planting : Civil) (hpl : planting.valid)
    (sd ed ev : Int) (he : 1 ≤ ev)
    (A B : Civil) (hAv : ValidR A) (hBv : ValidR B)
    (hparseA : parseLooseDate (toISODate A) = some A)
    (hflo : rdLo ≤ rataDie planting + sd) (hlhi : rataDie planting + ed ≤ rdHi)
    (c : Civil) (hcv : ValidR c) (hdue : inst.dueDateISO = toISODate c)
    (hpid : inst.planId = plan.id)
    (mk : String → FarmingTaskInstance) (T : String)
    (hkey : ∀ d : String, instKey (mk d) = plan.id ++ "|" ++ d ++ "|" ++ T) :
    ((cadenceDates planting sd ed ev (toISODate A) (toISODate B)).map
        (fun o => mk (toISODate o))).filter
      (fun t => decide (instKey t = instKey inst)) =
      if T = inst.title ∧ c ∈ cadenceDates planting sd ed ev (toISODate A) (toISODate B)
      then [mk (toISODate c)] else [] := by
  have hval := cadence_validR planting hpl sd ed ev he A B hAv hBv hparseA hflo hlhi
  have hpw : List.Pairwise (fun a b => rataDie a < rataDie b)
      (cadenceDates planting sd ed ev (toISODate A) (toISODate B)) :=
    cadenceDates_pairwise planting hpl sd ed ev he (toISODate A) (toISODate B) A B
      hparseA rfl rfl hAv hBv hflo hlhi
  rw [filter_of_map]
  by_cases hT : T = inst.title
  · have hcong : ∀ o ∈ cadenceDates planting sd ed ev (toISODate A) (toISODate B),
        (decide (instKey (mk (toISODate o)) = instKey inst)) =
          (decide (toISODate o = toISODate c)) := by
      intro o ho
      have hiff := key_iff_due plan inst c hcv hdue hpid (toISODate o) T o
        (hval o ho) rfl
      rw [hkey (toISODate o)]
      by_cases hb : toISODate o = toISODate c
      · rw [decide_eq_true (hiff.mpr ⟨hb, hT⟩), decide_eq_true hb]
      · rw [decide_eq_false (fun hh => hb (hiff.mp hh).1), decide_eq_false hb]
    rw [List.filter_congr hcong]
    rw [filter_unique_due c _ hpw
      (fun o ho hh => toISODate_inj o c (hval o ho) hcv hh)]
    by_cases hc : c ∈ cadenceDates planting sd ed ev (toISODate A) (toISODate B)
    · rw [if_pos hc, if_pos ⟨hT, hc⟩]
      rfl
    · rw [if_neg hc, if_neg (fun hh => hc hh.2)]
      rfl
  · have hnil : (cadenceDates planting sd ed ev (toISODate A) (toISODate B)).filter
        (fun o => decide (instKey (mk (toISODate o)) = instKey inst)) = [] := by
      rw [List.filter_eq_nil_iff]
      intro o ho
      simp only [decide_eq_true_eq]
      intro hh
      rw [hkey (toISODate o)] at hh
      exact hT ((key_iff_due plan inst c hcv hdue hpid (toISODate o) T o
        (hval o ho) rfl).mp hh).2
    rw [hnil, if_neg (fun hh => hT hh.1)]
    rfl

/-- Keyed filter over the windowed one-off segment: inside the window it is
the (window-independent) list of tasks that hit the key; outside it is
empty. -/
theorem oneoff_filter_explicit (plan : StoredFarmingPlan)
    (inst : FarmingTaskInstance) (lg : String) (A B : Civil)
    (hAv : ValidR A) (hBv : ValidR B)
    (htas : ∀ t ∈ plan.tasks, isCanonicalISO t.dueDateISO)
    (c : Civil) (hcv : ValidR c) (hdue : inst.dueDateISO = toISODate c)
    (hpid : inst.planId = plan.id) :
    ((plan.tasks.filter
        (fun t => decide (toISODate A ≤ t.dueDateISO ∧ t.dueDateISO ≤ toISODate B))).map
      (oneOffInstance plan lg)).filter (fun t => decide (instKey t = instKey inst)) =
      if rataDie A ≤ rataDie c ∧ rataDie c ≤ rataDie B then
        (plan.tasks.filter (fun t => decide (t.dueDateISO = toISODate c ∧
          jsOrStr (pickI18n t.titleI18n lg) t.title = inst.title))).map
            (oneOffInstance plan lg)
      else [] := by
  rw [filter_of_map, List.filter_filter]
  by_cases hin : rataDie A ≤ rataDie c ∧ rataDie c ≤ rataDie B
  · rw [if_pos hin]
    have hcong : ∀ t ∈ plan.tasks,
        ((decide (instKey (oneOffInstance plan lg t) = instKey inst)) &&
          (decide (toISODate A ≤ t.dueDateISO ∧ t.dueDateISO ≤ toISODate B))) =
          (decide (t.dueDateISO = toISODate c ∧
            jsOrStr (pickI18n t.titleI18n lg) t.title = inst.title)) := by
      intro t ht
      obtain ⟨ct, hctv, hcts⟩ := isCanonicalISO_elim (htas t ht)
      have hko : instKey (oneOffInstance plan lg t) =
          plan.id ++ "|" ++ t.dueDateISO ++ "|" ++
            jsOrStr (pickI18n t.titleI18n lg) t.title := rfl
      have hiff := key_iff_due plan inst c hcv hdue hpid t.dueDateISO
        (jsOrStr (pickI18n t.titleI18n lg) t.title) ct hctv hcts
      by_cases hR : t.dueDateISO = toISODate c ∧
          jsOrStr (pickI18n t.titleI18n lg) t.title = inst.title
      · have hK : (decide (instKey (oneOffInstance plan lg t) = instKey inst)) = true := by
          rw [hko]
          exact decide_eq_true (hiff.mpr hR)
        have hwin : (decide (toISODate A ≤ t.dueDateISO ∧ t.dueDateISO ≤ toISODate B)) = true := by
          rw [hR.1]
          exact decide_eq_true ⟨(toISODate_le_iff A c hAv hcv).mpr hin.1,
            (toISODate_le_iff c B hcv hBv).mpr hin.2⟩
        rw [hK, hwin, decide_eq_true hR]
        rfl
      · have hK : (decide (instKey (oneOffInstance plan lg t) = instKey inst)) = false := by
          rw [hko]
          exact decide_eq_false (fun hh => hR (hiff.mp hh))
        rw [hK, Bool.false_and, decide_eq_false hR]
    rw [List.filter_congr hcong]
  · rw [if_neg hin]
    have hnil : plan.tasks.filter
        (fun t => (decide (instKey (oneOffInstance plan lg t) = instKey inst)) &&
          (decide (toISODate A ≤ t.dueDateISO ∧ t.dueDateISO ≤ toISODate B))) = [] := by
      rw [List.filter_eq_nil_iff]
      intro t ht
      simp only [Bool.and_eq_true, decide_eq_true_eq]
      rintro ⟨hkey, hwin⟩
      obtain ⟨ct, hctv, hcts⟩ := isCanonicalISO_elim (htas t ht)
      have hko : instKey (oneOffInstance plan lg t) =
          plan.id ++ "|" ++ t.dueDateISO ++ "|" ++
            jsOrStr (pickI18n t.titleI18n lg) t.title := rfl
      rw [hko] at hkey
      have hiff := key_iff_due plan inst c hcv hdue hpid t.dueDateISO
        (jsOrStr (pickI18n t.titleI18n lg) t.title) ct hctv hcts
      have hR := hiff.mp hkey
      rw [hR.1] at hwin
      exact hin ⟨(toISODate_le_iff A c hAv hcv).mp hwin.1,
        (toISODate_le_iff c B hcv hBv).mp hwin.2⟩
    rw [hnil]
    rfl

theorem flatMap_nil_fun {α β : Type} (l : List α) :
    l.flatMap (fun _ => ([] : List β)) = [] := by
  induction l with
  | nil => rfl
  | cons a t ih => simp [List.flatMap_cons, ih]

theorem nonWateringEmissionsOf_eq (plan : StoredFarmingPlan)
    (language : Option String) (planting : Civil)
    (hplant : parseLooseDate plan.plantingDateISO = some planting)
    (sA sB : String)
    (hA1 : plan.plantingDateISO ≤ sA) (hA2 : sA ≤ plan.expectedHarvestDateISO)
    (hB1 : plan.plantingDateISO ≤ sB) (hB2 : sB ≤ plan.expectedHarvestDateISO)
    (hAB : ¬ sB < sA) :
    nonWateringEmissionsOf plan sA sB language =
      ((plan.tasks.filter
          (fun t => decide (sA ≤ t.dueDateISO ∧ t.dueDateISO ≤ sB))).map
        (oneOffInstance plan (normalizeLanguage language))) ++
      (plan.recurringTasks.flatMap fun r =>
        (cadenceDates planting r.startDay r.endDay r.everyDays sA sB).map
          (fun o => recurringInstance plan (normalizeLanguage language) r (toISODate o))) := by
  unfold nonWateringEmissionsOf
  rw [hplant]
  dsimp only
  rw [clampISO_id sA plan.plantingDateISO plan.expectedHarvestDateISO hA1 hA2,
    clampISO_id sB plan.plantingDateISO plan.expectedHarvestDateISO hB1 hB2,
    if_neg hAB]

theorem wateringEmissionsOf_eq (plan : StoredFarmingPlan)
    (language : Option String) (planting : Civil)
    (hplant : parseLooseDate plan.plantingDateISO = some planting)
    (sA sB : String)
    (hA1 : plan.plantingDateISO ≤ sA) (hA2 : sA ≤ plan.expectedHarvestDateISO)
    (hB1 : plan.plantingDateISO ≤ sB) (hB2 : sB ≤ plan.expectedHarvestDateISO)
    (hAB : ¬ sB < sA) :
    wateringEmissionsOf plan sA sB language =
      plan.wateringRules.flatMap fun w =>
        if w.everyDays ≥ 9999 then []
        else
          (cadenceDates planting w.startDay w.endDay w.everyDays sA sB).map
            (fun o => wateringInstance plan (normalizeLanguage language) w (toISODate o)) := by
  unfold wateringEmissionsOf
  rw [hplant]
  dsimp only
  rw [clampISO_id sA plan.plantingDateISO plan.expectedHarvestDateISO hA1 hA2,
    clampISO_id sB plan.plantingDateISO plan.expectedHarvestDateISO hB1 hB2,
    if_neg hAB]

/-- Inside a window within the plan range, the keyed filter of the emission
stream is window-independent: it equals the full-range one. -/
theorem emitted_filter_eq_full (plan : StoredFarmingPlan)
    (language : Option String) (planting harvestC A B : Civil)
    (hplv : ValidR planting) (hhv : ValidR harvestC)
    (hplant : parseLooseDate plan.plantingDateISO = some planting)
    (hplISO : plan.plantingDateISO = toISODate planting)
    (hhvISO : plan.expectedHarvestDateISO = toISODate harvestC)
    (hAv : ValidR A) (hBv : ValidR B)
    (hparseA : parseLooseDate (toISODate A) = some A)
    (hSA : rataDie planting ≤ rataDie A) (hAB : rataDie A ≤ rataDie B)
    (hBH : rataDie B ≤ rataDie harvestC)
    (hrec : ∀ r ∈ plan.recurringTasks, 1 ≤ r.everyDays ∧
      rdLo ≤ rataDie planting + r.startDay ∧ rataDie planting + r.endDay ≤ rdHi)
    (hwat : ∀ w ∈ plan.wateringRules, 1 ≤ w.everyDays ∧
      rdLo ≤ rataDie planting + w.startDay ∧ rataDie planting + w.endDay ≤ rdHi)
    (htas : ∀ t ∈ plan.tasks, isCanonicalISO t.dueDateISO)
    (inst : FarmingTaskInstance) (c : Civil) (hcv : ValidR c)
    (hdue : inst.dueDateISO = toISODate c) (hpid : inst.planId = plan.id)
    (hin1 : rataDie A ≤ rataDie c) (hin2 : rataDie c ≤ rataDie B) :
    (emittedResults plan (toISODate A) (toISODate B) language).filter
        (fun t => decide (instKey t = instKey inst)) =
      (emittedResults plan (toISODate planting) (toISODate harvestC) language).filter
        (fun t => decide (instKey t = instKey inst)) := by
  have hparseS : parseLooseDate (toISODate planting) = some planting := by
    rw [← hplISO]; exact hplant
  have hPH : rataDie planting ≤ rataDie harvestC :=
    le_trans hSA (le_trans hAB hBH)
  have hsA1 : plan.plantingDateISO ≤ toISODate A := by
    rw [hplISO]; exact (toISODate_le_iff _ _ hplv hAv).mpr hSA
  have hsA2 : toISODate A ≤ plan.expectedHarvestDateISO := by
    rw [hhvISO]; exact (toISODate_le_iff _ _ hAv hhv).mpr (le_trans hAB hBH)
  have hsB1 : plan.plantingDateISO ≤ toISODate B := by
    rw [hplISO]; exact (toISODate_le_iff _ _ hplv hBv).mpr (le_trans hSA hAB)
  have hsB2 : toISODate B ≤ plan.expectedHarvestDateISO := by
    rw [hhvISO]; exact (toISODate_le_iff _ _ hBv hhv).mpr hBH
  have hsAB : ¬ toISODate B < toISODate A :=
    not_lt.mpr ((toISODate_le_iff _ _ hAv hBv).mpr hAB)
  have hsS1 : plan.plantingDateISO ≤ toISODate planting := by
    rw [hplISO]
  have hsS2 : toISODate planting ≤ plan.expectedHarvestDateISO := by
    rw [hhvISO]; exact (toISODate_le_iff _ _ hplv hhv).mpr hPH
  have hsH1 : plan.plantingDateISO ≤ toISODate harvestC := by
    rw [hplISO]; exact (toISODate_le_iff _ _ hplv hhv).mpr hPH
  have hsH2 : toISODate harvestC ≤ plan.expectedHarvestDateISO := by
    rw [hhvISO]
  have hsSH : ¬ toISODate harvestC < toISODate planting :=
    not_lt.mpr ((toISODate_le_iff _ _ hplv hhv).mpr hPH)
  unfold emittedResults
  rw [nonWateringEmissionsOf_eq plan language planting hplant _ _ hsA1 hsA2 hsB1 hsB2 hsAB,
    wateringEmissionsOf_eq plan language planting hplant _ _ hsA1 hsA2 hsB1 hsB2 hsAB,
    nonWateringEmissionsOf_eq plan language planting hplant _ _ hsS1 hsS2 hsH1 hsH2 hsSH,
    wateringEmissionsOf_eq plan language planting hplant _ _ hsS1 hsS2 hsH1 hsH2 hsSH]
  rw [List.filter_append, List.filter_append, List.filter_append, List.filter_append]
  refine congrArg₂ (· ++ ·) (congrArg₂ (· ++ ·) ?_ ?_) ?_
  · rw [oneoff_filter_explicit plan inst (normalizeLanguage language) A B hAv hBv
      htas c hcv hdue hpid,
      oneoff_filter_explicit plan inst (normalizeLanguage language) planting
        harvestC hplv hhv htas c hcv hdue hpid,
      if_pos ⟨hin1, hin2⟩, if_pos ⟨le_trans hSA hin1, le_trans hin2 hBH⟩]
  · rw [filter_flatMap, filter_flatMap]
    apply flatMap_congr
    intro r hr
    obtain ⟨hre, hrlo, hrhi⟩ := hrec r hr
    rw [cadence_filter_explicit plan inst planting hplv.1 r.startDay r.endDay
        r.everyDays hre A B hAv hBv hparseA hrlo hrhi c hcv hdue hpid
        (fun d => recurringInstance plan (normalizeLanguage language) r d)
        (jsOrStr (pickI18n r.titleI18n (normalizeLanguage language)) r.title)
        (fun d => rfl),
      cadence_filter_explicit plan inst planting hplv.1 r.startDay r.endDay
        r.everyDays hre planting harvestC hplv hhv hparseS hrlo hrhi c hcv hdue hpid
        (fun d => recurringInstance plan (normalizeLanguage language) r d)
        (jsOrStr (pickI18n r.titleI18n (normalizeLanguage language)) r.title)
        (fun d => rfl)]
    apply if_congr ?_ rfl rfl
    apply and_congr_right
    intro _
    rw [cadence_mem_win planting hplv.1 r.startDay r.endDay r.everyDays hre A B
      hAv hBv hparseA hrlo hrhi c,
      cadence_mem_win planting hplv.1 r.startDay r.endDay r.everyDays hre planting
        harvestC hplv hhv hparseS hrlo hrhi c]
    constructor
    · rintro ⟨hcore, _, _⟩
      exact ⟨hcore, by omega, by omega⟩
    · rintro ⟨hcore, _, _⟩
      exact ⟨hcore, hin1, hin2⟩
  · rw [filter_flatMap, filter_flatMap]
    apply flatMap_congr
    intro w hw
    obtain ⟨hwe, hwlo, hwhi⟩ := hwat w hw
    by_cases hs : w.everyDays ≥ 9999
    · simp only [if_pos hs, List.filter_nil]
    · rw [if_neg hs, if_neg hs]
      rw [cadence_filter_explicit plan inst planting hplv.1 w.startDay w.endDay
          w.everyDays hwe A B hAv hBv hparseA hwlo hwhi c hcv hdue hpid
          (fun d => wateringInstance plan (normalizeLanguage language) w d)
          (jsOrStr (jsOrOpt (pickI18n w.titleI18n (normalizeLanguage language)) w.title)
            "Water/irrigate (as per stage)")
          (fun d => rfl),
        cadence_filter_explicit plan inst planting hplv.1 w.startDay w.endDay
          w.everyDays hwe planting harvestC hplv hhv hparseS hwlo hwhi c hcv hdue hpid
          (fun d => wateringInstance plan (normalizeLanguage language) w d)
          (jsOrStr (jsOrOpt (pickI18n w.titleI18n (normalizeLanguage language)) w.title)
            "Water/irrigate (as per stage)")
          (fun d => rfl)]
      apply if_congr ?_ rfl rfl
      apply and_congr_right
      intro _
      rw [cadence_mem_win planting hplv.1 w.startDay w.endDay w.everyDays hwe A B
        hAv hBv hparseA hwlo hwhi c,
        cadence_mem_win planting hplv.1 w.startDay w.endDay w.everyDays hwe planting
          harvestC hplv hhv hparseS hwlo hwhi c]
      constructor
      · rintro ⟨hcore, _, _⟩
        exact ⟨hcore, by omega, by omega⟩
      · rintro ⟨hcore, _, _⟩
        exact ⟨hcore, hin1, hin2⟩

/-- Outside the window, the keyed filter of the emission stream is empty. -/
theorem emitted_filter_nil (plan : StoredFarmingPlan)
    (language : Option String) (planting harvestC A B : Civil)
    (hplv : ValidR planting) (hhv : ValidR harvestC)
    (hplant : parseLooseDate plan.plantingDateISO = some planting)
    (hplISO : plan.plantingDateISO = toISODate planting)
    (hhvISO : plan.expectedHarvestDateISO = toISODate harvestC)
    (hAv : ValidR A) (hBv : ValidR B)
    (hparseA : parseLooseDate (toISODate A) = some A)
    (hSA : rataDie planting ≤ rataDie A) (hAB : rataDie A ≤ rataDie B)
    (hBH : rataDie B ≤ rataDie harvestC)
    (hrec : ∀ r ∈ plan.recurringTasks, 1 ≤ r.everyDays ∧
      rdLo ≤ rataDie planting + r.startDay ∧ rataDie planting + r.endDay ≤ rdHi)
    (hwat : ∀ w ∈ plan.wateringRules, 1 ≤ w.everyDays ∧
      rdLo ≤ rataDie planting + w.startDay ∧ rataDie planting + w.endDay ≤ rdHi)
    (htas : ∀ t ∈ plan.tasks, isCanonicalISO t.dueDateISO)
    (inst : FarmingTaskInstance) (c : Civil) (hcv : ValidR c)
    (hdue : inst.dueDateISO = toISODate c) (hpid : inst.planId = plan.id)
    (hout : ¬ (rataDie A ≤ rataDie c ∧ rataDie c ≤ rataDie B)) :
    (emittedResults plan (toISODate A) (toISODate B) language).filter
        (fun t => decide (instKey t = instKey inst)) = [] := by
  have hsA1 : plan.plantingDateISO ≤ toISODate A := by
    rw [hplISO]; exact (toISODate_le_iff _ _ hplv hAv).mpr hSA
  have hsA2 : toISODate A ≤ plan.expectedHarvestDateISO := by
    rw [hhvISO]; exact (toISODate_le_iff _ _ hAv hhv).mpr (le_trans hAB hBH)
  have hsB1 : plan.plantingDateISO ≤ toISODate B := by
    rw [hplISO]; exact (toISODate_le_iff _ _ hplv hBv).mpr (le_trans hSA hAB)
  have hsB2 : toISODate B ≤ plan.expectedHarvestDateISO := by
    rw [hhvISO]; exact (toISODate_le_iff _ _ hBv hhv).mpr hBH
  have hsAB : ¬ toISODate B < toISODate A :=
    not_lt.mpr ((toISODate_le_iff _ _ hAv hBv).mpr hAB)
  unfold emittedResults
  rw [nonWateringEmissionsOf_eq plan language planting hplant _ _ hsA1 hsA2 hsB1 hsB2 hsAB,
    wateringEmissionsOf_eq plan language planting hplant _ _ hsA1 hsA2 hsB1 hsB2 hsAB]
  rw [List.filter_append, List.filter_append]
  rw [oneoff_filter_explicit plan inst (normalizeLanguage language) A B hAv hBv
    htas c hcv hdue hpid, if_neg hout]
  have hrnil : (plan.recurringTasks.flatMap fun r =>
      (cadenceDates planting r.startDay r.endDay r.everyDays (toISODate A)
        (toISODate B)).map
        (fun o => recurringInstance plan (normalizeLanguage language) r
          (toISODate o))).filter (fun t => decide (instKey t = instKey inst)) = [] := by
    rw [filter_flatMap]
    rw [flatMap_congr _ _ (fun _ => []) ?_]
    · exact flatMap_nil_fun _
    · intro r hr
      obtain ⟨hre, hrlo, hrhi⟩ := hrec r hr
      rw [cadence_filter_explicit plan inst planting hplv.1 r.startDay r.endDay
          r.everyDays hre A B hAv hBv hparseA hrlo hrhi c hcv hdue hpid
          (fun d => recurringInstance plan (normalizeLanguage language) r d)
          (jsOrStr (pickI18n r.titleI18n (normalizeLanguage language)) r.title)
          (fun d => rfl)]
      rw [if_neg ?_]
      rintro ⟨-, hmem⟩
      rw [cadence_mem_win planting hplv.1 r.startDay r.endDay r.everyDays hre A B
        hAv hBv hparseA hrlo hrhi c] at hmem
      exact hout ⟨hmem.2.1, hmem.2.2⟩
  have hwnil : (plan.wateringRules.flatMap fun w =>
      if w.everyDays ≥ 9999 then []
      else
        (cadenceDates planting w.startDay w.endDay w.everyDays (toISODate A)
          (toISODate B)).map
          (fun o => wateringInstance plan (normalizeLanguage language) w
            (toISODate o))).filter (fun t => decide (instKey t = instKey inst)) = [] := by
    rw [filter_flatMap]
    rw [flatMap_congr _ _ (fun _ => []) ?_]
    · exact flatMap_nil_fun _
    · intro w hw
      obtain ⟨hwe, hwlo, hwhi⟩ := hwat w hw
      by_cases hs : w.everyDays ≥ 9999
      · simp only [if_pos hs, List.filter_nil]
      · rw [if_neg hs]
        rw [cadence_filter_explicit plan inst planting hplv.1 w.startDay w.endDay
            w.everyDays hwe A B hAv hBv hparseA hwlo hwhi c hcv hdue hpid
            (fun d => wateringInstance plan (normalizeLanguage language) w d)
            (jsOrStr (jsOrOpt (pickI18n w.titleI18n (normalizeLanguage language))
              w.title) "Water/irrigate (as per stage)")
            (fun d => rfl)]
        rw [if_neg ?_]
        rintro ⟨-, hmem⟩
        rw [cadence_mem_win planting hplv.1 w.startDay w.endDay w.everyDays hwe A B
          hAv hBv hparseA hwlo hwhi c] at hmem
        exact hout ⟨hmem.2.1, hmem.2.2⟩
  rw [hrnil, hwnil]
  rfl

/-- Every emitted instance carries the plan id and a canonical due date
inside the (plan-range) window. -/
theorem emitted_mem_shape (plan : StoredFarmingPlan) (language : Option String)
    (planting A B : Civil) (hpl : planting.valid)
    (hplant : parseLooseDate plan.plantingDateISO = some planting)
    (hAv : ValidR A) (hBv : ValidR B)
    (hparseA : parseLooseDate (toISODate A) = some A)
    (hsA1 : plan.plantingDateISO ≤ toISODate A)
    (hsA2 : toISODate A ≤ plan.expectedHarvestDateISO)
    (hsB1 : plan.plantingDateISO ≤ toISODate B)
    (hsB2 : toISODate B ≤ plan.expectedHarvestDateISO)
    (hsAB : ¬ toISODate B < toISODate A)
    (hrec : ∀ r ∈ plan.recurringTasks, 1 ≤ r.everyDays ∧
      rdLo ≤ rataDie planting + r.startDay ∧ rataDie planting + r.endDay ≤ rdHi)
    (hwat : ∀ w ∈ plan.wateringRules, 1 ≤ w.everyDays ∧
      rdLo ≤ rataDie planting + w.startDay ∧ rataDie planting + w.endDay ≤ rdHi)
    (htas : ∀ t ∈ plan.tasks, isCanonicalISO t.dueDateISO)
    (inst : FarmingTaskInstance)
    (hm : inst ∈ emittedResults plan (toISODate A) (toISODate B) language) :
    inst.planId = plan.id ∧ ∃ c : Civil, ValidR c ∧ inst.dueDateISO = toISODate c ∧
      rataDie A ≤ rataDie c ∧ rataDie c ≤ rataDie B := by
  unfold emittedResults at hm
  rw [nonWateringEmissionsOf_eq plan language planting hplant _ _ hsA1 hsA2 hsB1 hsB2 hsAB,
    wateringEmissionsOf_eq plan language planting hplant _ _ hsA1 hsA2 hsB1 hsB2 hsAB] at hm
  rcases List.mem_append.mp hm with h12 | h3
  · rcases List.mem_append.mp h12 with hone | htwo
    · obtain ⟨t, ht, rfl⟩ := List.mem_map.mp hone
      rw [List.mem_filter] at ht
      obtain ⟨ct, hctv, hcts⟩ := isCanonicalISO_elim (htas t ht.1)
      have hcond := of_decide_eq_true ht.2
      rw [hcts] at hcond
      refine ⟨rfl, ct, hctv, hcts, ?_, ?_⟩
      · exact (toISODate_le_iff _ _ hAv hctv).mp hcond.1
      · exact (toISODate_le_iff _ _ hctv hBv).mp hcond.2
    · obtain ⟨r, hrm, hin⟩ := List.mem_flatMap.mp htwo
      obtain ⟨o, ho, rfl⟩ := List.mem_map.mp hin
      obtain ⟨hre, hrlo, hrhi⟩ := hrec r hrm
      have hoV := cadence_validR planting hpl r.startDay r.endDay r.everyDays hre
        A B hAv hBv hparseA hrlo hrhi o ho
      have hmem := (cadence_mem_win planting hpl r.startDay r.endDay r.everyDays hre
        A B hAv hBv hparseA hrlo hrhi o).mp ho
      exact ⟨rfl, o, hoV, rfl, hmem.2.1, hmem.2.2⟩
  · obtain ⟨w, hwm, hin⟩ := List.mem_flatMap.mp h3
    obtain ⟨hwe, hwlo, hwhi⟩ := hwat w hwm
    by_cases hs : w.everyDays ≥ 9999
    · rw [if_pos hs] at hin
      exact absurd hin (List.not_mem_nil _)
    · rw [if_neg hs] at hin
      obtain ⟨o, ho, rfl⟩ := List.mem_map.mp hin
      have hoV := cadence_validR planting hpl w.startDay w.endDay w.everyDays hwe
        A B hAv hBv hparseA hwlo hwhi o ho
      have hmem := (cadence_mem_win planting hpl w.startDay w.endDay w.everyDays hwe
        A B hAv hBv hparseA hwlo hwhi o).mp ho
      exact ⟨rfl, o, hoV, rfl, hmem.2.1, hmem.2.2⟩


/-! ## Concrete inputs used by witnesses and counterexamples -/

/-- A minimal stored plan whose only cadence rule is a *recurring* rule with
the reserved stop sentinel `everyDays = 9999`. -/
def planC1 : StoredFarmingPlan :=
  { id := "p1"
    cropType := "rice"
    cropName := "rice"
    areaAcres := 1
    plantingDateISO := "2024-01-01"
    expectedHarvestDateISO := "2024-01-05"
    cleanupAfterISO := "2024-01-06"
    wateringRules := []
    recurringTasks := [{ id := "r1", type := "field", title := "Scout"
                         startDay := 0, endDay := 4, everyDays := 9999 }]
    tasks := []
    createdAt := 0
    updatedAt := 0
    status := "active" }

/-- A stored plan with two one-off tasks on the same due date whose titles
(`"apple task"`, `"Banana task"`) order differently under ordinal
(code-point) comparison and under `localeCompare`. -/
def planC9 : StoredFarmingPlan :=
  { id := "p9"
    cropType := "rice"
    cropName := "rice"
    areaAcres := 1
    plantingDateISO := "2024-06-01"
    expectedHarvestDateISO := "2024-06-10"
    cleanupAfterISO := "2024-06-11"
    wateringRules := []
    recurringTasks := []
    tasks := [{ id := "t-a", type := "field", title := "apple task"
                dueDateISO := "2024-06-01" },
              { id := "t-b", type := "field", title := "Banana task"
                dueDateISO := "2024-06-01" }]
    createdAt := 0
    updatedAt := 0
    status := "active" }

/-- The heuristic plan base for rice planted 2024-06-01, no harvest
override. -/
def baseC2 : HeuristicPlanBase := buildHeuristicPlan "rice" "rice" 1 ⟨2024, 6, 1⟩ none

/-- The stored document an upsert of `baseC2` produces (ids/timestamps fixed
arbitrarily; `expand` reads neither). -/
def planC2 : StoredFarmingPlan :=
  { id := "rice-2024-06-01-a1"
    cropType := baseC2.cropType
    cropName := baseC2.cropName
    areaAcres := baseC2.areaAcres
    plantingDateISO := baseC2.plantingDateISO
    expectedHarvestDateISO := baseC2.expectedHarvestDateISO
    cleanupAfterISO := baseC2.cleanupAfterISO
    wateringRules := baseC2.wateringRules
    recurringTasks := baseC2.recurringTasks
    tasks := baseC2.tasks
    createdAt := 0
    updatedAt := 0
    status := baseC2.status
    source := some baseC2.source }

/-- A stored plan with full Gemini content (title and overview i18n present)
under the id the upsert derives for rice / 2024-06-01 / 1 acre. -/
def existingC3 : StoredFarmingPlan :=
  { id := "rice-2024-06-01-a1"
    cropType := "rice"
    cropName := "rice"
    areaAcres := 1
    planTitleI18n := some { en := some "Rice plan" }
    planOverviewI18n := some { en := some "A full gemini overview" }
    plantingDateISO := "2024-06-01"
    expectedHarvestDateISO := "2024-09-29"
    cleanupAfterISO := "2024-09-30"
    wateringRules := [{ startDay := 0, endDay := 30, everyDays := 1, notes := "gemini watering" }]
    recurringTasks := []
    tasks := []
    createdAt := 5
    updatedAt := 5
    status := "active"
    source := some "gemini"
    generatedAt := some 5
    geminiGenerationAttemptedAt := some 5
    geminiGenerationError := some "" }

/-- The result of a first upsert (heuristic fallback path: Gemini not
configured) for rice / 2024-06-01 / 1 acre, starting from no stored
document. -/
def firstUpsertC5 : UpsertResult :=
  (upsertFarmingPlanForCurrentUser true false (Except.error "e") 0 none
      "rice" "rice" 1 "2024-06-01" none none).toOption.getD
    { planId := ""
      store :=
        { id := "", cropType := "", cropName := "", areaAcres := 0
          plantingDateISO := "", expectedHarvestDateISO := ""
          cleanupAfterISO := "", wateringRules := [], recurringTasks := []
          tasks := [], createdAt := 0, updatedAt := 0, status := "" }
      oracleInvoked := true
      writes := 0 }

/-- The heuristic base for rice planted 2024-06-10 with an override harvest
date *before* planting (the unclamped override of `C7_counterexample`). -/
def baseC8 : HeuristicPlanBase :=
  buildHeuristicPlan "rice" "rice" 1 ⟨2024, 6, 10⟩ (some ⟨2024, 6, 1⟩)

/-- The stored document of `baseC8`. -/
def planC8 : StoredFarmingPlan :=
  { id := "rice-2024-06-10-a1"
    cropType := baseC8.cropType
    cropName := baseC8.cropName
    areaAcres := baseC8.areaAcres
    plantingDateISO := baseC8.plantingDateISO
    expectedHarvestDateISO := baseC8.expectedHarvestDateISO
    cleanupAfterISO := baseC8.cleanupAfterISO
    wateringRules := baseC8.wateringRules
    recurringTasks := baseC8.recurringTasks
    tasks := baseC8.tasks
    createdAt := 0
    updatedAt := 0
    status := baseC8.status
    source := some baseC8.source }

/-- The instance `expandInRangeFromRules planC1 "2024-01-01" "2024-01-05"`
returns (built by the recurring-rule block from rule `r1` on day 0). -/
def instC8 : FarmingTaskInstance :=
  { planId := "p1"
    cropName := "rice"
    planTitle := some "rice"
    planExpectedHarvestDateISO := some "2024-01-05"
    type := "field"
    title := "Scout"
    dueDateISO := "2024-01-01"
    timeOfDay := some "afternoon"
    timeHHmm := some "13:00"
    notes := none }

/-- A stored plan in which a recurring rule and a watering rule emit
instances with the same dedup key (same plan, same days, same resolved title
`"Daily care"`). -/
def planC10 : StoredFarmingPlan :=
  { id := "p10"
    cropType := "rice"
    cropName := "rice"
    areaAcres := 1
    plantingDateISO := "2024-06-01"
    expectedHarvestDateISO := "2024-06-05"
    cleanupAfterISO := "2024-06-06"
    wateringRules := [{ startDay := 0, endDay := 4, everyDays := 1
                        title := some "Daily care", notes := "wnotes" }]
    recurringTasks := [{ id := "r", type := "field", title := "Daily care"
                         startDay := 0, endDay := 4, everyDays := 1 }]
    tasks := []
    createdAt := 0
    updatedAt := 0
    status := "active" }

/-- The watering-block instance `planC10` produces on day 0. -/
def instC10 : FarmingTaskInstance :=
  { planId := "p10"
    cropName := "rice"
    planTitle := some "rice"
    planExpectedHarvestDateISO := some "2024-06-05"
    type := "watering"
    title := "Daily care"
    dueDateISO := "2024-06-01"
    timeOfDay := some "morning"
    timeHHmm := some "07:00"
    notes := some "wnotes" }

/-- The ordering the spec claims for the output of `expand`: ascending due
date with ties broken by a case-sensitive ordinal (code-point) comparison of
the titles.  This definition follows the spec's words, to be compared against
the comparator the code uses (`instSortLE`). -/
def ordinalTieLE (a b : FarmingTaskInstance) : Prop :=
  a.dueDateISO < b.dueDateISO ∨ (a.dueDateISO = b.dueDateISO ∧ a.title ≤ b.title)

instance : DecidableRel ordinalTieLE := by
  unfold ordinalTieLE; exact fun a b => by infer_instance

/-! ## The claims -/

/-- C1 (corrected): the stop-sentinel skip applies to watering rules only.
This theorem is the half that holds: a *watering* rule with
`everyDays >= 9999` contributes nothing to `expand` — removing all such rules
from a plan never changes the output, for any plan, window and language.
(The recurring-rule half of the claim is refuted by `C1_counterexample`.) -/
theorem C1_sentinel_skips_watering_rules (plan : StoredFarmingPlan)
    (startISO endISO : String) (language : Option String) :
    expandInRangeFromRules
        { plan with
          wateringRules := plan.wateringRules.filter (fun w => decide (w.everyDays < 9999)) }
        startISO endISO language =
      expandInRangeFromRules plan startISO endISO language := by
  have h1 : nonWateringEmissionsOf
      { plan with
        wateringRules := plan.wateringRules.filter (fun w => decide (w.everyDays < 9999)) }
      startISO endISO language = nonWateringEmissionsOf plan startISO endISO language := rfl
  have h2 : wateringEmissionsOf
      { plan with
        wateringRules := plan.wateringRules.filter (fun w => decide (w.everyDays < 9999)) }
      startISO endISO language = wateringEmissionsOf plan startISO endISO language := by
    unfold wateringEmissionsOf
    dsimp only
    cases hp : parseLooseDate plan.plantingDateISO with
    | none => rfl
    | some planting =>
      split_ifs with hw
      · rfl
      · apply flatMap_filter_of_nil
        intro w _ hfalse
        have hge : 9999 ≤ w.everyDays := by
          have := of_decide_eq_false hfalse
          omega
        rw [if_pos hge]
  unfold expandInRangeFromRules emittedResults
  rw [h1, h2]

set_option maxRecDepth 10000 in
/-- C1 counterexample: a plan whose only rule of any kind is a recurring rule
with the stop sentinel `everyDays = 9999` still produces a task instance, so
a *cadence rule* (as the claim says) with the sentinel is not always
skipped. -/
theorem C1_counterexample :
    planC1.wateringRules = [] ∧ planC1.tasks = [] ∧
    planC1.recurringTasks.all (fun r => decide (9999 ≤ r.everyDays)) = true ∧
    (expandInRangeFromRules planC1 "2024-01-01" "2024-01-05" none).length = 1 := by
  decide

/-- C4 (corrected): the part of the claim that holds.  With an authenticated
caller, a planting date that does not parse makes
`upsertFarmingPlanForCurrentUser` fail with the validation error, before the
oracle is consulted or any document is written (the function returns the
error and no `UpsertResult`, so no write is recorded).  The area half of the
claim is refuted by `C4_counterexample`. -/
theorem C4_invalid_date_fails (geminiConfigured : Bool)
    (oracle : Except String GeminiPlanV1) (now : Int)
    (existing : Option StoredFarmingPlan) (cropTypeIn cropNameIn : String)
    (areaAcres : Int) (plantingDateStr : String)
    (expectedHarvestDateStr sourceParam : Option String)
    (h : parseLooseDate plantingDateStr = none) :
    upsertFarmingPlanForCurrentUser true geminiConfigured oracle now existing
        cropTypeIn cropNameIn areaAcres plantingDateStr expectedHarvestDateStr
        sourceParam =
      .error .invalidPlantingDate := by
  simp [upsertFarmingPlanForCurrentUser, h]

/-- C4 witness: the theorem applied to the concrete non-date `"not-a-date"`. -/
theorem C4_witness :
    parseLooseDate "not-a-date" = none ∧
    upsertFarmingPlanForCurrentUser true false (Except.error "e") 0 none
        "rice" "rice" 1 "not-a-date" none none =
      .error .invalidPlantingDate :=
  ⟨by decide,
    C4_invalid_date_fails false (Except.error "e") 0 none "rice" "rice" 1
      "not-a-date" none none (by decide)⟩

/-- C4 counterexample: `areaAcres = 0` is not validated anywhere in the
service: the signed-in call with area `0` succeeds and performs a write
(the UI screen, not this function, is what rejects non-positive areas). -/
theorem C4_counterexample :
    ((upsertFarmingPlanForCurrentUser true false (Except.error "e") 0 none
        "rice" "rice" 0 "2024-06-01" none none).toOption.map
      (fun r => r.writes)) = some 1 := by
  decide

/-- C7 (corrected): in the heuristic builder an explicit harvest override is
stored exactly as given — no clamp to dates after planting is applied (that
clamp exists only in the Gemini success path of the upsert) — and the cleanup
date is the stored harvest date plus one day. -/
theorem C7_override_used_unclamped (cropType cropName : String) (areaAcres : Int)
    (plantingDate h : Civil) :
    (buildHeuristicPlan cropType cropName areaAcres plantingDate
        (some h)).expectedHarvestDateISO = toISODate h ∧
    (buildHeuristicPlan cropType cropName areaAcres plantingDate
        (some h)).cleanupAfterISO = toISODate (addDays h 1) :=
  ⟨rfl, rfl⟩

/-- C7 counterexample: an override nine days *before* the planting date is
stored unchanged, so the stored harvest date sorts strictly before the stored
planting date — refuting the claimed clamp to strictly-after-planting. -/
theorem C7_counterexample :
    (buildHeuristicPlan "rice" "rice" 1 ⟨2024, 6, 10⟩
        (some ⟨2024, 6, 1⟩)).expectedHarvestDateISO = "2024-06-01" ∧
    (buildHeuristicPlan "rice" "rice" 1 ⟨2024, 6, 10⟩
        (some ⟨2024, 6, 1⟩)).expectedHarvestDateISO <
      (buildHeuristicPlan "rice" "rice" 1 ⟨2024, 6, 10⟩
        (some ⟨2024, 6, 1⟩)).plantingDateISO := by
  decide

/-- C9 (corrected): the list `expand` returns is sorted — but by the
`localeCompare`-based comparator (`instSortLE`: due date first, ties by
resolved title under the locale-aware comparison), not by a case-sensitive
ordinal comparison; `C9_counterexample` shows the ordinal ordering is
violated.  Determinism holds: the output is a pure function of the inputs. -/
theorem C9_sorted_by_locale_comparator (plan : StoredFarmingPlan)
    (startISO endISO : String) (language : Option String) :
    List.Sorted instSortLE (expandInRangeFromRules plan startISO endISO language) :=
  sortInstances_sorted _

set_option maxRecDepth 10000 in
/-- C9 counterexample: two same-day tasks titled `"apple task"` and
`"Banana task"`.  The output places `"apple task"` first (the
`localeCompare` order), which violates the ordinal (code-point) tie-break
the claim states, under which `"Banana task" < "apple task"`. -/
theorem C9_counterexample :
    ((expandInRangeFromRules planC9 "2024-06-01" "2024-06-01" none).map
        (fun t => t.title)) = ["apple task", "Banana task"] ∧
    ¬ List.Sorted ordinalTieLE
        (expandInRangeFromRules planC9 "2024-06-01" "2024-06-01" none) := by
  decide

set_option maxRecDepth 40000 in
/-- C2 (corrected): for the heuristic rice plan planted 2024-06-01 with no
harvest override, `expand(plan, "2024-06-01", "2024-06-01")` returns *three*
instances — the day-0 basal-fertilization one-off, the day-0 monsoon
drainage-check recurring occurrence (June is in the monsoon window), and the
day-0 watering occurrence of the establishment watering rule — in this
sorted order. -/
theorem C2_day0_window_three_instances :
    ((expandInRangeFromRules planC2 "2024-06-01" "2024-06-01" none).map
        (fun t => (t.type, t.title, t.dueDateISO))) =
      [("fertilizer",
        "Basal fertilization (FYM/compost + recommended NPK) and zinc if needed",
        "2024-06-01"),
       ("field", "Check drainage & remove standing water (monsoon)", "2024-06-01"),
       ("watering", "Water/irrigate (as per stage)", "2024-06-01")] := by
  decide

set_option maxRecDepth 40000 in
/-- C2 counterexample: the same call returns three instances, not exactly
one as claimed. -/
theorem C2_counterexample :
    (expandInRangeFromRules planC2 "2024-06-01" "2024-06-01" none).length = 3 := by
  decide

set_option maxRecDepth 40000 in
/-- C3 (code bug): a stored plan with full Gemini content exists under the
derived id, yet the upsert does not leave it unchanged: the returned plan id
matches as claimed, but the call performs a write, and the stored document
changes (here `updatedAt` is restamped to the call time — and the rule
collections are overwritten with a freshly rebuilt heuristic schedule).  The
code's own comment ("Generate and store the plan only once.  If already
present, we reuse it.") and the spec agree; the fallback branch of the code
does not. -/
theorem C3_full_plan_rewritten :
    existingC3.planTitleI18n.isSome = true ∧
    existingC3.planOverviewI18n.isSome = true ∧
    ((upsertFarmingPlanForCurrentUser true true (Except.error "unused") 99
        (some existingC3) "rice" "rice" 1 "2024-06-01" none none).toOption.map
      (fun r => (r.planId, r.oracleInvoked, r.writes,
        decide (r.store = existingC3),
        decide (r.store.updatedAt = existingC3.updatedAt)))) =
      some ("rice-2024-06-01-a1", false, 1, false, false) := by
  decide

/-- C5 (confirmed): the upsert is idempotent for identical inputs.  If a
first signed-in call (with no stored document) returns `r1`, then a second
call with the same crop, planting date, area and configuration — now seeing
`r1`'s stored document — succeeds, returns the same plan id, and does not
invoke the generation oracle (whatever the second call's oracle would
answer). -/
theorem C5_idempotent_planId_no_second_oracle (geminiConfigured : Bool)
    (oracle oracle2 : Except String GeminiPlanV1) (now now2 : Int)
    (cropTypeIn cropNameIn : String) (areaAcres : Int) (plantingDateStr : String)
    (expectedHarvestDateStr sourceParam : Option String) (r1 : UpsertResult)
    (h1 : upsertFarmingPlanForCurrentUser true geminiConfigured oracle now none
        cropTypeIn cropNameIn areaAcres plantingDateStr expectedHarvestDateStr
        sourceParam = .ok r1) :
    ((upsertFarmingPlanForCurrentUser true geminiConfigured oracle2 now2
        (some r1.store) cropTypeIn cropNameIn areaAcres plantingDateStr
        expectedHarvestDateStr sourceParam).toOption.map
      (fun r2 => (r2.planId, r2.oracleInvoked))) = some (r1.planId, false) := by
  unfold upsertFarmingPlanForCurrentUser at h1 ⊢
  rw [if_neg (by simp : ¬ ¬ (true = true))] at h1 ⊢
  cases hp : parseLooseDate plantingDateStr with
  | none => rw [hp] at h1; exact absurd h1 (by simp)
  | some planting =>
    rw [hp] at h1
    dsimp only at h1 ⊢
    by_cases hgc : geminiConfigured = true
    · rw [if_pos (by exact ⟨hgc, by simp, by simp⟩)] at h1
      cases oracle with
      | error msg =>
        rw [Except.ok.injEq] at h1
        subst h1
        dsimp only
        rw [if_neg (by simp)]
        rfl
      | ok gen =>
        rw [Except.ok.injEq] at h1
        subst h1
        dsimp only
        rw [if_neg (by simp)]
        rfl
    · rw [if_neg (by simp [hgc])] at h1
      rw [Except.ok.injEq] at h1
      subst h1
      dsimp only
      rw [if_neg (by simp [hgc])]
      rfl

set_option maxRecDepth 40000 in
/-- C5 witness: the theorem applied to the concrete first call (heuristic
fallback, rice / 2024-06-01 / 1 acre) whose result is `firstUpsertC5`. -/
theorem C5_witness :
    ((upsertFarmingPlanForCurrentUser true false (Except.error "e2") 7
        (some firstUpsertC5.store) "rice" "rice" 1 "2024-06-01" none
        none).toOption.map (fun r2 => (r2.planId, r2.oracleInvoked))) =
      some (firstUpsertC5.planId, false) :=
  C5_idempotent_planId_no_second_oracle false (Except.error "e")
    (Except.error "e2") 0 7 "rice" "rice" 1 "2024-06-01" none none
    firstUpsertC5 (by decide)

/-- C8 (corrected): the half of the claim that holds.  Every instance the
*windowed* expander returns has its due date within
`[plantingDateISO, expectedHarvestDateISO]` of its plan (whenever the plan's
own range is non-empty): the requested window is clamped into the plan range
and every emission is gated on the clamped window.  The *upcoming* expander
has no such property — see `C8_counterexample`. -/
theorem C8_windowed_within_plan_range (plan : StoredFarmingPlan)
    (startISO endISO : String) (language : Option String)
    (inst : FarmingTaskInstance)
    (hrange : plan.plantingDateISO ≤ plan.expectedHarvestDateISO)
    (h : inst ∈ expandInRangeFromRules plan startISO endISO language) :
    plan.plantingDateISO ≤ inst.dueDateISO ∧
      inst.dueDateISO ≤ plan.expectedHarvestDateISO := by
  have h1 : inst ∈ emittedResults plan startISO endISO language :=
    jsObjectValues_subset _ _ _ ((sortInstances_mem _ _).mp h)
  have h2 := emittedResults_due_in_window plan startISO endISO language inst h1
  have hb1 := clampISO_bounds startISO plan.plantingDateISO
    plan.expectedHarvestDateISO hrange
  have hb2 := clampISO_bounds endISO plan.plantingDateISO
    plan.expectedHarvestDateISO hrange
  exact ⟨le_trans hb1.1 h2.1, le_trans h2.2 hb2.2⟩

set_option maxRecDepth 10000 in
/-- C8 witness: the theorem applied to `planC1` and the one instance its
day-0..day-4 window returns. -/
theorem C8_witness :
    planC1.plantingDateISO ≤ planC1.expectedHarvestDateISO ∧
    instC8 ∈ expandInRangeFromRules planC1 "2024-01-01" "2024-01-05" none ∧
    (planC1.plantingDateISO ≤ instC8.dueDateISO ∧
      instC8.dueDateISO ≤ planC1.expectedHarvestDateISO) :=
  ⟨by decide, by decide,
    C8_windowed_within_plan_range planC1 "2024-01-01" "2024-01-05" none instC8
      (by decide) (by decide)⟩

set_option maxRecDepth 40000 in
/-- C8 counterexample: the upcoming-tasks expander does not clamp to the plan
range.  For the stored plan whose harvest override predates planting
(`planC8`), the harvest one-off task is returned with a due date strictly
before the plan's `plantingDateISO`. -/
theorem C8_counterexample :
    ((expandUpcomingFromRules ⟨2024, 6, 1⟩ planC8 3 none).any
      (fun t => decide (t.dueDateISO < planC8.plantingDateISO))) = true := by
  decide

/-- C10 (confirmed): the deduplication keeps the *last* emission written to a
key, and the watering block is emitted after the one-off and recurring
blocks.  Hence whenever any watering-block emission collides with the key of
a returned instance, the returned instance is itself from the watering block
(so its `type`, `timeOfDay`, `timeHHmm` and `notes` are the watering rule's
fields). -/
theorem C10_last_write_wins_watering (plan : StoredFarmingPlan)
    (startISO endISO : String) (language : Option String)
    (inst : FarmingTaskInstance)
    (h : inst ∈ expandInRangeFromRules plan startISO endISO language)
    (hw : (wateringEmissionsOf plan startISO endISO language).filter
        (fun t => instKey t = instKey inst) ≠ []) :
    inst ∈ wateringEmissionsOf plan startISO endISO language := by
  rw [mem_expandInRange] at h
  unfold emittedResults at h
  rw [List.filter_append, getLast?_append_right _ _ hw] at h
  exact List.mem_of_mem_filter (getLast?_mem _ _ h)

set_option maxRecDepth 10000 in
/-- C10 witness: in `planC10` a recurring occurrence and a watering
occurrence share the key `p10|2024-06-01|Daily care`; the returned instance
is the watering one (`type = "watering"`, morning time, the watering
notes). -/
theorem C10_witness :
    instC10.type = "watering" ∧
    instC10 ∈ expandInRangeFromRules planC10 "2024-06-01" "2024-06-01" none ∧
    instC10 ∈ wateringEmissionsOf planC10 "2024-06-01" "2024-06-01" none :=
  ⟨rfl, by decide,
    C10_last_write_wins_watering planC10 "2024-06-01" "2024-06-01" none instC10
      (by decide) (by decide)⟩

/-- C6 (confirmed): splitting a plan-range window at any interior date yields
two adjacent windows whose expansions, united as a set, are exactly the
full-range expansion. -/
theorem C6_adjacent_window_union (plan : StoredFarmingPlan)
    (language : Option String) (planting Mc Mc2 harvestC : Civil)
    (inst : FarmingTaskInstance)
    (h1 : parseLooseDate plan.plantingDateISO = some planting)
    (h2 : plan.plantingDateISO = toISODate planting)
    (h3 : ValidR planting)
    (h4 : plan.expectedHarvestDateISO = toISODate harvestC)
    (h5 : ValidR harvestC)
    (h6 : parseLooseDate (toISODate Mc2) = some Mc2)
    (h7 : ValidR Mc) (h8 : ValidR Mc2)
    (h9 : rataDie Mc2 = rataDie Mc + 1)
    (h10 : rataDie planting ≤ rataDie Mc)
    (h11 : rataDie Mc < rataDie harvestC)
    (hrec : ∀ r ∈ plan.recurringTasks, 1 ≤ r.everyDays ∧
      rdLo ≤ rataDie planting + r.startDay ∧ rataDie planting + r.endDay ≤ rdHi)
    (hwat : ∀ w ∈ plan.wateringRules, 1 ≤ w.everyDays ∧
      rdLo ≤ rataDie planting + w.startDay ∧ rataDie planting + w.endDay ≤ rdHi)
    (htas : ∀ t ∈ plan.tasks, isCanonicalISO t.dueDateISO) :
    (inst ∈ expandInRangeFromRules plan (toISODate planting) (toISODate Mc) language ∨
      inst ∈ expandInRangeFromRules plan (toISODate Mc2) (toISODate harvestC) language) ↔
      inst ∈ expandInRangeFromRules plan (toISODate planting) (toISODate harvestC) language := by
  have hparseS : parseLooseDate (toISODate planting) = some planting := by
    rw [← h2]; exact h1
  have hPH : rataDie planting ≤ rataDie harvestC := by omega
  have hsS1 : plan.plantingDateISO ≤ toISODate planting := by rw [h2]
  have hsS2 : toISODate planting ≤ plan.expectedHarvestDateISO := by
    rw [h4]; exact (toISODate_le_iff _ _ h3 h5).mpr hPH
  have hsM1 : plan.plantingDateISO ≤ toISODate Mc := by
    rw [h2]; exact (toISODate_le_iff _ _ h3 h7).mpr h10
  have hsM2 : toISODate Mc ≤ plan.expectedHarvestDateISO := by
    rw [h4]; exact (toISODate_le_iff _ _ h7 h5).mpr (by omega)
  have hsM'1 : plan.plantingDateISO ≤ toISODate Mc2 := by
    rw [h2]; exact (toISODate_le_iff _ _ h3 h8).mpr (by omega)
  have hsM'2 : toISODate Mc2 ≤ plan.expectedHarvestDateISO := by
    rw [h4]; exact (toISODate_le_iff _ _ h8 h5).mpr (by omega)
  have hsH1 : plan.plantingDateISO ≤ toISODate harvestC := by
    rw [h2]; exact (toISODate_le_iff _ _ h3 h5).mpr hPH
  have hsH2 : toISODate harvestC ≤ plan.expectedHarvestDateISO := by rw [h4]
  have hsSM : ¬ toISODate Mc < toISODate planting :=
    not_lt.mpr ((toISODate_le_iff _ _ h3 h7).mpr h10)
  have hsM'H : ¬ toISODate harvestC < toISODate Mc2 :=
    not_lt.mpr ((toISODate_le_iff _ _ h8 h5).mpr (by omega))
  have hsSH : ¬ toISODate harvestC < toISODate planting :=
    not_lt.mpr ((toISODate_le_iff _ _ h3 h5).mpr hPH)
  rw [mem_expandInRange, mem_expandInRange, mem_expandInRange]
  constructor
  · rintro (hm | hm)
    · have hmm : inst ∈ emittedResults plan (toISODate planting) (toISODate Mc)
          language :=
        List.mem_of_mem_filter (getLast?_mem _ _ hm)
      obtain ⟨hpid, c, hcv, hdue, hb1, hb2⟩ := emitted_mem_shape plan language
        planting planting Mc h3.1 h1 h3 h7 hparseS hsS1 hsS2 hsM1 hsM2 hsSM
        hrec hwat htas inst hmm
      rw [emitted_filter_eq_full plan language planting harvestC planting Mc h3 h5
        h1 h2 h4 h3 h7 hparseS (le_refl _) h10 (by omega) hrec hwat htas inst c hcv
        hdue hpid hb1 hb2] at hm
      exact hm
    · have hmm : inst ∈ emittedResults plan (toISODate Mc2) (toISODate harvestC)
          language :=
        List.mem_of_mem_filter (getLast?_mem _ _ hm)
      obtain ⟨hpid, c, hcv, hdue, hb1, hb2⟩ := emitted_mem_shape plan language
        planting Mc2 harvestC h3.1 h1 h8 h5 h6 hsM'1 hsM'2 hsH1 hsH2 hsM'H
        hrec hwat htas inst hmm
      rw [emitted_filter_eq_full plan language planting harvestC Mc2 harvestC h3 h5
        h1 h2 h4 h8 h5 h6 (by omega) (by omega) (le_refl _) hrec hwat htas inst c hcv
        hdue hpid hb1 hb2] at hm
      exact hm
  · intro hm
    have hmm : inst ∈ emittedResults plan (toISODate planting) (toISODate harvestC)
        language :=
      List.mem_of_mem_filter (getLast?_mem _ _ hm)
    obtain ⟨hpid, c, hcv, hdue, hb1, hb2⟩ := emitted_mem_shape plan language
      planting planting harvestC h3.1 h1 h3 h5 hparseS hsS1 hsS2 hsH1 hsH2 hsSH
      hrec hwat htas inst hmm
    rcases le_or_lt (rataDie c) (rataDie Mc) with hc | hc
    · left
      rw [emitted_filter_eq_full plan language planting harvestC planting Mc h3 h5
        h1 h2 h4 h3 h7 hparseS (le_refl _) h10 (by omega) hrec hwat htas inst c hcv
        hdue hpid hb1 hc]
      exact hm
    · right
      rw [emitted_filter_eq_full plan language planting harvestC Mc2 harvestC h3 h5
        h1 h2 h4 h8 h5 h6 (by omega) (by omega) (le_refl _) hrec hwat htas inst c hcv
        hdue hpid (by omega) hb2]
      exact hm

set_option maxRecDepth 10000 in
/-- C6 witness: the theorem applied to `planC1`, split at 2024-01-02 /
2024-01-03, for the one instance the plan expands to. -/
theorem C6_witness :
    (instC8 ∈ expandInRangeFromRules planC1 (toISODate ⟨2024, 1, 1⟩)
        (toISODate ⟨2024, 1, 2⟩) none ∨
      instC8 ∈ expandInRangeFromRules planC1 (toISODate ⟨2024, 1, 3⟩)
        (toISODate ⟨2024, 1, 5⟩) none) ↔
      instC8 ∈ expandInRangeFromRules planC1 (toISODate ⟨2024, 1, 1⟩)
        (toISODate ⟨2024, 1, 5⟩) none :=
  C6_adjacent_window_union planC1 none ⟨2024, 1, 1⟩ ⟨2024, 1, 2⟩ ⟨2024, 1, 3⟩
    ⟨2024, 1, 5⟩ instC8 (by decide) (by decide) (by decide) (by decide)
    (by decide) (by decide) (by decide) (by decide) (by decide) (by decide)
    (by decide) (by decide) (by decide) (by decide)

end ShowcaseX
